import Mathlib

/-!
FORT validator: TAL loading, per-TAL validation, the parallel runner and the update daemon.

A shallow embedding of `src/object/tal.c` and `src/updates_daemon.c`.

Conventions of the embedding.

* A C function that returns an `int` error code and fills an out-parameter becomes a Lean
  function returning the pair (code, out-parameter); `0` is success, as in the source.
* A collaborator whose code is not part of these two files (line reader, URI constructor,
  fetchers, certificate traversal, certificate stack, RTR database, threads, allocator) is an
  argument of the embedded function: either the function it stands for, or the value its call
  returns. Theorems quantify over these arguments.
* Calls whose only effect lies outside the embedded state are recorded in an event log, so that
  statements such as "is never called" or "is called once per entry" can be made.
* Calls that only write a log line (`pr_val_debug`, the text of `pr_op_err`), release memory
  (`free`, `tal_destroy`) or set up per-thread bookkeeping (`fnstack_*`, `working_repo_*`) have
  no influence on the values and calls studied here and are left out.
* `pr_crit` never returns; a run that reaches it has the result `outcome.crit`.
* Sizes and indices are natural numbers: no count in these functions comes near the range of
  `unsigned int` or `size_t`.
-/

namespace Fort

/-! ## Error codes and helpers from headers outside the two source files -/

/-- The errno value `ENOENT` of `<errno.h>`. -/
def ENOENT : Int := 2

/-- The errno value `ENOMEM` of `<errno.h>`. -/
def ENOMEM : Int := 12

/-- The errno value `EINVAL` of `<errno.h>`. -/
def EINVAL : Int := 22

/-- Modelled from the spec: `ENOTSUPPORTED` is a project error code declared in `common.h`,
which is not among the sources; the spec names it `UnsupportedScheme`. It is a positive number
distinct from the errno values; no statement below depends on which one. -/
def ENOTSUPPORTED : Int := 3172

/-- Modelled from the spec: `pr_op_err` is declared in `log.h`, which is not among the sources.
It writes an operator-visible error (spec section 7, "logged via operator channel, propagate as
hard error to caller") and its result is the error code the caller returns, `-EINVAL`. -/
def pr_op_err : Int := -EINVAL

/-- Modelled from the spec: `pr_enomem` is declared in `log.h`, which is not among the sources.
It reports an allocation failure and its result is the error code `-ENOMEM`. -/
def pr_enomem : Int := -ENOMEM

/-- Modelled from the spec: `pr_val_warn` is declared in `log.h`, which is not among the
sources. It logs a warning and its result is `0`, so that `return pr_val_warn(...)` is the soft
error of spec section 4.E ("On soft fetch failure, log and continue to the next URI";
"`= 0`: soft error"). -/
def pr_val_warn : Int := 0

/-- Modelled from the spec: `ENSURE_NEGATIVE` is a macro of `common.h`, which is not among the
sources. It turns an error code into the hard error of spec section 4.E ("`< 0`: hard error"):
a negative code is kept, any other code is negated. -/
def ENSURE_NEGATIVE (error : Int) : Int := if error < 0 then error else -error

/-- Result of a run: the function returned `value`, the run ended in `pr_crit` (which aborts the
process), or the run indexed an array outside its bounds. -/
inductive outcome (α : Type) where
  | ret (value : α)
  | crit
  | undefined
deriving DecidableEq

/-! ## `struct uris`, `struct tal` and the URI block of a TAL file -/

/-- The C `struct uris`: `array` holds the `count` URIs stored so far, `size` is the allocated
capacity. -/
structure uris (U : Type) where
  array : List U
  size : Nat
deriving DecidableEq

/-- The field `count` of `struct uris`. -/
def uris.count {U : Type} (u : uris U) : Nat := u.array.length

/-- The C `struct tal`. -/
structure tal (U : Type) where
  file_name : String
  uris : uris U
  spki : List Nat
deriving DecidableEq

/-- The state left by `uris_init` when its `malloc` succeeds. -/
def uris_init {U : Type} : uris U := { array := [], size := 4 }

/-- The function `uris_add`. `uri_create_mixed_str` is the URI constructor (its code and the
out-parameter `new`); `realloc n` tells whether growing the array to `n` entries succeeds. -/
def uris_add {U : Type} (uri_create_mixed_str : String → Int × U) (realloc : Nat → Bool)
    (u : uris U) (uri : String) : Int × uris U :=
  let (error, new) := uri_create_mixed_str uri
  if error = ENOTSUPPORTED then (pr_op_err, u)
  else if error ≠ 0 then (error, u)
  else if u.count + 1 ≥ u.size then
    if realloc (u.size * 2) then (0, { array := u.array ++ [new], size := u.size * 2 })
    else (pr_enomem, { array := u.array, size := u.size * 2 })
  else (0, { array := u.array ++ [new], size := u.size })

/-- The line reader `struct line_file`: the results of the calls of `lfile_read` still to come,
each an error code and the line read (without its line feed). After the last entry the reader
is at the end of the file. -/
abbrev line_file := List (Int × String)

/-- One call of `lfile_read`: the error code, the line (`none` is the `NULL` of end of file) and
the reader afterwards. -/
def lfile_read : line_file → Int × Option String × line_file
  | [] => (0, none, [])
  | (error, line) :: rest => if error ≠ 0 then (error, none, rest) else (0, some line, rest)

/-- The test `strncmp(uri, "#", 1) == 0`. -/
def is_comment (uri : String) : Bool := uri.data.head? = some '#'

/-- The first `do ... while (true)` of `read_uris`, entered after a comment line: it reads on
until a line that is no comment. Each pattern is one call of `lfile_read`. The result is the
error code, the line that ended the loop and the reader afterwards. -/
def read_uris_comments : line_file → Int × Option String × line_file
  | [] => (pr_op_err, none, [])
  | (error, uri) :: lfile =>
    if error ≠ 0 then (error, none, lfile)
    else if uri = "" then (pr_op_err, none, lfile)
    else if !is_comment uri then (0, some uri, lfile)
    else read_uris_comments lfile

/-- The second `do ... while (true)` of `read_uris`, entered with the current line `uri`: it
adds the line to the list and reads the next one, until the blank line. Each pattern is one
call of `lfile_read`. -/
def read_uris_list {U : Type} (uri_create_mixed_str : String → Int × U) (realloc : Nat → Bool) :
    uris U → String → line_file → Int × uris U × line_file
  | u, uri, [] =>
    let (error, u1) := uris_add uri_create_mixed_str realloc u uri
    if error ≠ 0 then (error, u1, []) else (pr_op_err, u1, [])
  | u, uri, (read_error, next) :: lfile =>
    let (error, u1) := uris_add uri_create_mixed_str realloc u uri
    if error ≠ 0 then (error, u1, (read_error, next) :: lfile)
    else if read_error ≠ 0 then (read_error, u1, lfile)
    else if next = "" then (0, u1, lfile)
    else read_uris_list uri_create_mixed_str realloc u1 next lfile

/-- The function `read_uris`: the error code, the URI list and the reader afterwards. -/
def read_uris {U : Type} (uri_create_mixed_str : String → Int × U) (realloc : Nat → Bool)
    (lfile : line_file) (u : uris U) : Int × uris U × line_file :=
  match lfile_read lfile with
  | (error, uri, lfile1) =>
    if error ≠ 0 then (error, u, lfile1)
    else match uri with
      | none => (pr_op_err, u, lfile1)
      | some uri =>
        if uri = "" then (pr_op_err, u, lfile1)
        else if is_comment uri then
          match read_uris_comments lfile1 with
          | (comment_error, first, lfile2) =>
            if comment_error ≠ 0 then (comment_error, u, lfile2)
            else match first with
              | none => (pr_op_err, u, lfile2)
              | some first => read_uris_list uri_create_mixed_str realloc u first lfile2
        else read_uris_list uri_create_mixed_str realloc u uri lfile1

/-! ## `base64_sanitize` -/

/-- The constant `BUF_SIZE` of `base64_sanitize`. -/
def BUF_SIZE : Nat := 65

/-- The line feed character. -/
def LF : Char := Char.ofNat 10

/-- The function `locate_char`: the index of the first `find` in `str`, `none` for `NULL`. -/
def locate_char : List Char → Char → Option Nat
  | [], _ => none
  | c :: str, find => if c = find then some 0 else (locate_char str find).map (· + 1)

/-- The bytes one pass of the `while` loop of `base64_sanitize` writes at `result[offset]` for
the chunk `buf` of `fread_result` bytes. -/
def base64_sanitize_chunk (buf : List Char) : List Char :=
  let fread_result := buf.length
  match locate_char buf LF with
  | none => buf.take (fread_result - 1) ++ [LF] ++ buf.drop (fread_result - 1)
  | some eol =>
    if eol + 1 < fread_result then buf.take (eol + 1) ++ buf.drop (eol + 1) ++ [LF]
    else buf.take (eol + 1)

/-- The number of bytes `fread` is asked for: `BUF_SIZE`, or `original_size` when fewer are
left. -/
def fread_size (original_size : Nat) : Nat :=
  if original_size > BUF_SIZE then BUF_SIZE else original_size

/-- The `while` loop of `base64_sanitize` when every `fread` returns all the bytes it is asked
for. `fd` holds the bytes not read yet, `result` the bytes written so far (`offset` is its
length), `ferror n` is the value of `ferror` after the read made with `n` bytes left. The
result is the error code and the bytes written. `base64_sanitize_read_loop` is the same loop
for reads that may return fewer bytes. -/
def base64_sanitize_loop (ferror : Nat → Int) (original_size : Nat) (fd : List Char)
    (result : List Char) : Int × List Char :=
  if (fd.take (fread_size original_size)).length > 0 then
    if ferror original_size ≠ 0 then (ferror original_size, result)
    else
      base64_sanitize_loop ferror
        (original_size - (fd.take (fread_size original_size)).length)
        (fd.drop (fread_size original_size))
        (result ++ base64_sanitize_chunk (fd.take (fread_size original_size)))
  else (0, result)
termination_by original_size
decreasing_by
  have h1 : (fd.take (fread_size original_size)).length ≤ fread_size original_size :=
    List.length_take_le _ _
  have h2 : fread_size original_size ≤ original_size := by
    unfold fread_size
    split <;> omega
  omega

/-- The function `base64_sanitize` on the bytes `fd` that follow the blank line, read in full;
`original_size` is their number (file size minus reader offset). `malloc n` tells whether an
allocation of `n` bytes succeeds. The result is the error code and the bytes written to `*out`
before the terminating NUL. `base64_sanitize_out` gives the buffer with its NUL, for reads that
may be short. -/
def base64_sanitize (malloc : Nat → Bool) (ferror : Nat → Int) (fd : List Char) :
    Int × Option (List Char) :=
  let original_size := fd.length
  let new_size := original_size + original_size / BUF_SIZE
  if !malloc (new_size + 1) then (pr_enomem, none)
  else if !malloc BUF_SIZE then (pr_enomem, none)
  else
    match base64_sanitize_loop ferror original_size fd [] with
    | (error, result) =>
      if error ≠ 0 then (error, none)
      else if result.length ≠ new_size ∧ !malloc (result.length + 1) then (pr_enomem, none)
      else (0, some result)

/-- The chunks the `while` loop of `base64_sanitize` reads with `fread` and writes out, pass by
pass: the same loop, recording `buf` instead of writing. A pass stopped by `ferror` writes
nothing and ends the list. -/
def base64_sanitize_chunks (ferror : Nat → Int) (original_size : Nat) (fd : List Char) :
    List (List Char) :=
  if (fd.take (fread_size original_size)).length > 0 then
    if ferror original_size ≠ 0 then []
    else
      fd.take (fread_size original_size) ::
        base64_sanitize_chunks ferror
          (original_size - (fd.take (fread_size original_size)).length)
          (fd.drop (fread_size original_size))
  else []
termination_by original_size
decreasing_by
  have h1 : (fd.take (fread_size original_size)).length ≤ fread_size original_size :=
    List.length_take_le _ _
  have h2 : fread_size original_size ≤ original_size := by
    unfold fread_size
    split <;> omega
  omega

/-- The NUL character that ends a C string. -/
def NUL : Char := Char.ofNat 0

/-- The number of bytes one call of `fread` returns when `asked` bytes are asked for and the
bytes `fd` are left in the file. `fread asked fd` is what the stream would hand over; it
cannot be more than was asked for, nor more than the file holds. Fewer bytes than asked, or
none before the end of the file, is a short read. -/
def fread_result (fread : Nat → List Char → Nat) (asked : Nat) (fd : List Char) : Nat :=
  min (fread asked fd) (min asked fd.length)

/-- The `while` loop of `base64_sanitize` with `fread` as a collaborator that may return fewer
bytes than it is asked for. The loop ends, without asking `ferror`, as soon as a read returns
no byte. -/
def base64_sanitize_read_loop (fread : Nat → List Char → Nat) (ferror : Nat → Int)
    (original_size : Nat) (fd : List Char) (result : List Char) : Int × List Char :=
  if fread_result fread (fread_size original_size) fd > 0 then
    if ferror original_size ≠ 0 then (ferror original_size, result)
    else
      base64_sanitize_read_loop fread ferror
        (original_size - fread_result fread (fread_size original_size) fd)
        (fd.drop (fread_result fread (fread_size original_size) fd))
        (result ++ base64_sanitize_chunk
          (fd.take (fread_result fread (fread_size original_size) fd)))
  else (0, result)
termination_by original_size
decreasing_by
  have h1 : fread_result fread (fread_size original_size) fd ≤ fread_size original_size := by
    unfold fread_result
    omega
  have h2 : fread_size original_size ≤ original_size := by
    unfold fread_size
    split <;> omega
  omega

/-- The function `base64_sanitize` with its stream and its out-parameter spelled out: reads may
be short, and `*out` is the buffer `result` closed by `result[offset] = NUL`. The result is the
error code and the buffer. -/
def base64_sanitize_out (malloc : Nat → Bool) (fread : Nat → List Char → Nat)
    (ferror : Nat → Int) (fd : List Char) : Int × Option (List Char) :=
  let original_size := fd.length
  let new_size := original_size + original_size / BUF_SIZE
  if !malloc (new_size + 1) then (pr_enomem, none)
  else if !malloc BUF_SIZE then (pr_enomem, none)
  else
    match base64_sanitize_read_loop fread ferror original_size fd [] with
    | (error, result) =>
      if error ≠ 0 then (error, none)
      else if result.length ≠ new_size ∧ !malloc (result.length + 1) then (pr_enomem, none)
      else (0, some (result ++ [NUL]))

/-- The string a NUL-terminated buffer holds: its bytes before the first NUL. This is what
`BIO_new_mem_buf(tmp, -1)` in `read_spki` takes from `*out` and hands to the decoder. -/
def c_string (buffer : List Char) : List Char := buffer.takeWhile (fun c => c != NUL)

/-! ## `foreach_uri` and `tal_shuffle_uris` -/

/-- The loop of `foreach_uri` over the URIs not visited yet. -/
def foreach_uri_from {U σ : Type} (cb : tal U → U → σ → outcome (Int × σ)) (t : tal U) :
    List U → σ → outcome (Int × σ)
  | [], arg => outcome.ret (0, arg)
  | uri :: rest, arg =>
    match cb t uri arg with
    | outcome.ret (error, arg1) =>
      if error ≠ 0 then outcome.ret (error, arg1) else foreach_uri_from cb t rest arg1
    | outcome.crit => outcome.crit
    | outcome.undefined => outcome.undefined

/-- The function `foreach_uri`. The callback receives the TAL, the URI and the state `arg`
(what the C callback reaches through its pointer and the process state), and returns its code
and the state afterwards. -/
def foreach_uri {U σ : Type} (t : tal U) (cb : tal U → U → σ → outcome (Int × σ)) (arg : σ) :
    outcome (Int × σ) :=
  foreach_uri_from cb t t.uris.array arg

/-- The `for` loop of `tal_shuffle_uris` with `n` passes left, at index `i`.
`random_at_most k rng` is the value drawn and the random source afterwards. An index outside
the `count` entries of the array gives `none`. -/
def tal_shuffle_uris_loop {U ρ : Type} (random_at_most : Int → ρ → Int × ρ) (count : Nat) :
    Nat → Nat → List U → ρ → Option (List U × ρ)
  | 0, _, array, rng => some (array, rng)
  | n + 1, i, array, rng =>
    match random_at_most (((count - 1 - i : Nat) : Int)) rng with
    | (r, rng1) =>
      let random_index : Int := r + (i : Int)
      if h : i < array.length ∧ 0 ≤ random_index ∧ random_index.toNat < array.length then
        let tmp := array[i]
        let array1 := array.set i array[random_index.toNat]
        let array2 := array1.set random_index.toNat tmp
        tal_shuffle_uris_loop random_at_most count n (i + 1) array2 rng1
      else none

/-- The function `tal_shuffle_uris`: the TAL with its URI array shuffled in place, and the
random source afterwards. -/
def tal_shuffle_uris {U ρ : Type} (random_at_most : Int → ρ → Int × ρ) (t : tal U) (rng : ρ) :
    Option (tal U × ρ) :=
  (tal_shuffle_uris_loop random_at_most t.uris.count t.uris.count 0 t.uris.array rng).map
    (fun r => (tal.mk t.file_name (uris.mk r.1 t.uris.size) t.spki, r.2))

/-! ## `handle_tal_uri` and `do_file_validation` -/

/-- The C `enum pubkey_state` of `state.h`. -/
inductive pubkey_state where
  | PKS_VALID
  | PKS_INVALID
  | PKS_UNTESTED
deriving DecidableEq

/-- The C `struct deferred_cert` of `cert_stack.h`: a repository publication point and a
certificate URI, one reference held on each. -/
structure deferred_cert (U R : Type) where
  pp : R
  uri : U
deriving DecidableEq

/-- One pass of the drain loop as the collaborators answer it: the code returned by
`deferstack_pop`, the entry it handed over, and the code `certificate_traverse` returns for that
entry. -/
structure deferstack_pop_result (U R : Type) where
  error : Int
  deferred : deferred_cert U R
  certificate_traverse : Int
deriving DecidableEq

/-- What the collaborators of `handle_tal_uri` answer during one call: the code of
`validation_prepare`; `uri_is_rsync`; the codes of `download_files` and of `handle_https_uri`
(that of `http_download_file`); `uri_is_certificate`; the code of
`db_rrdp_uris_set_all_unvisited`; the code of `certificate_traverse(NULL, uri)` and the
public-key state it leaves; whether `validation_certstack` is non-NULL; and the successive
answers of `deferstack_pop`, after the last of which the stack is empty (`-ENOENT`). -/
structure tal_uri_env (U R : Type) where
  validation_prepare : Int
  uri_is_rsync : Bool
  download_files : Int
  handle_https_uri : Int
  uri_is_certificate : Bool
  db_rrdp_uris_set_all_unvisited : Int
  certificate_traverse : Int
  validation_pubkey_state : pubkey_state
  validation_certstack : Bool
  deferstack_pop : List (deferstack_pop_result U R)

/-- The collaborator calls of `handle_tal_uri` that the log records. -/
inductive tal_event (U R : Type) where
  | validation_prepare
  | download_files (uri : U)
  | handle_https_uri (uri : U)
  | db_rrdp_uris_set_all_unvisited
  | certificate_traverse (pp : Option R) (uri : U)
  | deferstack_pop (error : Int)
  | uri_refput (uri : U)
  | rpp_refput (pp : R)
  | validation_destroy
deriving DecidableEq

/-- The fetch of `handle_tal_uri`: `download_files` for an rsync URI, `handle_https_uri`
otherwise. The result is the error code and the call made. -/
def fetch_tal_uri {U R : Type} (env : tal_uri_env U R) (uri : U) : Int × tal_event U R :=
  if env.uri_is_rsync then (env.download_files, tal_event.download_files uri)
  else (env.handle_https_uri, tal_event.handle_https_uri uri)

/-- The `do ... while (true)` of `handle_tal_uri` that handles every other certificate, with
the label `end` it jumps to. The first argument holds the answers of `deferstack_pop` still to
come. -/
def handle_tal_uri_drain {U R : Type} :
    List (deferstack_pop_result U R) → List (tal_event U R) →
      outcome (Int × List (tal_event U R))
  | [], log =>
    outcome.ret (1, log ++ [tal_event.deferstack_pop (-ENOENT), tal_event.validation_destroy])
  | pop :: stack, log =>
    if pop.error = -ENOENT then
      outcome.ret (1, log ++ [tal_event.deferstack_pop pop.error, tal_event.validation_destroy])
    else if pop.error ≠ 0 then outcome.crit
    else
      handle_tal_uri_drain stack
        (log ++ [tal_event.deferstack_pop pop.error,
          tal_event.certificate_traverse (some pop.deferred.pp) pop.deferred.uri,
          tal_event.uri_refput pop.deferred.uri, tal_event.rpp_refput pop.deferred.pp])

/-- The function `handle_tal_uri`. `world log uri` gives the answers of the collaborators for
this call; they may depend on the URI and on everything that happened before (`log`). The
result is the code returned and the log extended by the calls made. The `switch` over the
public-key state is total on the three values of the enum, so its `pr_crit` is not reached. -/
def handle_tal_uri {U R : Type} (world : List (tal_event U R) → U → tal_uri_env U R)
    (_t : tal U) (uri : U) (log : List (tal_event U R)) :
    outcome (Int × List (tal_event U R)) :=
  let env := world log uri
  if env.validation_prepare ≠ 0 then
    outcome.ret (ENSURE_NEGATIVE env.validation_prepare, log ++ [tal_event.validation_prepare])
  else if (fetch_tal_uri env uri).1 ≠ 0 then
    outcome.ret (pr_val_warn,
      log ++ [tal_event.validation_prepare, (fetch_tal_uri env uri).2,
        tal_event.validation_destroy])
  else if !env.uri_is_certificate then
    outcome.ret (ENSURE_NEGATIVE pr_op_err,
      log ++ [tal_event.validation_prepare, (fetch_tal_uri env uri).2,
        tal_event.validation_destroy])
  else if env.db_rrdp_uris_set_all_unvisited ≠ 0 then
    outcome.ret (env.db_rrdp_uris_set_all_unvisited,
      log ++ [tal_event.validation_prepare, (fetch_tal_uri env uri).2,
        tal_event.db_rrdp_uris_set_all_unvisited, tal_event.validation_destroy])
  else if env.certificate_traverse ≠ 0 then
    match env.validation_pubkey_state with
    | pubkey_state.PKS_INVALID =>
      outcome.ret (0,
        log ++ [tal_event.validation_prepare, (fetch_tal_uri env uri).2,
          tal_event.db_rrdp_uris_set_all_unvisited, tal_event.certificate_traverse none uri,
          tal_event.validation_destroy])
    | pubkey_state.PKS_VALID | pubkey_state.PKS_UNTESTED =>
      outcome.ret (ENSURE_NEGATIVE env.certificate_traverse,
        log ++ [tal_event.validation_prepare, (fetch_tal_uri env uri).2,
          tal_event.db_rrdp_uris_set_all_unvisited, tal_event.certificate_traverse none uri,
          tal_event.validation_destroy])
  else if !env.validation_certstack then outcome.crit
  else
    handle_tal_uri_drain env.deferstack_pop
      (log ++ [tal_event.validation_prepare, (fetch_tal_uri env uri).2,
        tal_event.db_rrdp_uris_set_all_unvisited, tal_event.certificate_traverse none uri])

/-- The function `do_file_validation`, from `tal_load` on. `tal_load` is the code and the TAL
that `tal_load(thread->tal_file, &tal)` yields, `cb` is the per-URI handler given to
`foreach_uri` (`handle_tal_uri` in the source). The result is `thread->exit_status` and the
state the handler leaves. -/
def do_file_validation {U σ ρ : Type} (tal_load : Int × tal U)
    (config_get_shuffle_tal_uris : Bool) (random_at_most : Int → ρ → Int × ρ) (rng : ρ)
    (cb : tal U → U → σ → outcome (Int × σ)) (arg : σ) : outcome (Int × σ) :=
  if tal_load.1 ≠ 0 then outcome.ret (tal_load.1, arg)
  else
    match (if config_get_shuffle_tal_uris then
        (tal_shuffle_uris random_at_most tal_load.2 rng).map Prod.fst
      else some tal_load.2) with
    | none => outcome.undefined
    | some t =>
      match foreach_uri t cb arg with
      | outcome.ret (error, arg1) =>
        if error > 0 then outcome.ret (0, arg1)
        else if error = 0 then outcome.ret (pr_op_err, arg1)
        else outcome.ret (error, arg1)
      | outcome.crit => outcome.crit
      | outcome.undefined => outcome.undefined

/-! ## `perform_standalone_validation` -/

/-- The C `struct validation_thread`, with the exit status the worker has stored by the time it
is joined. -/
structure validation_thread where
  pid : Nat
  tal_file : String
  exit_status : Int
deriving DecidableEq

/-- The collaborator calls of `perform_standalone_validation` that the log records. -/
inductive runner_event where
  | db_rrdp_reset_visited_tals
  | close_thread (pid : Nat)
  | pthread_join (pid : Nat)
  | thread_destroy (pid : Nat)
  | reqs_errors_log_summary
  | db_rrdp_rem_nonvisited_tals
deriving DecidableEq

/-- The loop "End all threads" of `perform_standalone_validation`. -/
def close_all_threads : List validation_thread → List runner_event
  | [] => []
  | thread :: threads =>
    runner_event.close_thread thread.pid :: runner_event.thread_destroy thread.pid ::
      close_all_threads threads

/-- The loop "Wait for all" of `perform_standalone_validation` over the thread list, head
first, with the variables `error` and `t_error`. `pthread_join pid` is the code of the join. -/
def wait_for_all (pthread_join : Nat → Int) :
    List validation_thread → Int → Int → List runner_event →
      outcome (Int × Int × List runner_event)
  | [], error, t_error, log => outcome.ret (error, t_error, log)
  | thread :: threads, _, t_error, log =>
    if pthread_join thread.pid ≠ 0 then outcome.crit
    else if thread.exit_status ≠ 0 then
      wait_for_all pthread_join threads (pthread_join thread.pid) thread.exit_status
        (log ++ [runner_event.pthread_join thread.pid, runner_event.thread_destroy thread.pid])
    else
      wait_for_all pthread_join threads (pthread_join thread.pid) t_error
        (log ++ [runner_event.pthread_join thread.pid, runner_event.thread_destroy thread.pid])

/-- The function `perform_standalone_validation`. `malloc_param` tells whether the allocation
of `param` succeeds; `process_file_or_dir` is the code of the spawning pass and the thread list
it leaves (head first: `SLIST_INSERT_HEAD` puts the worker spawned last in front). The result is
the code returned and the calls made. -/
def perform_standalone_validation (malloc_param : Bool)
    (process_file_or_dir : Int × List validation_thread) (pthread_join : Nat → Int) :
    outcome (Int × List runner_event) :=
  if !malloc_param then outcome.ret (pr_enomem, [])
  else
    match process_file_or_dir with
    | (error, threads) =>
      if error ≠ 0 then
        outcome.ret (error, runner_event.db_rrdp_reset_visited_tals :: close_all_threads threads)
      else
        match wait_for_all pthread_join threads error 0
            [runner_event.db_rrdp_reset_visited_tals] with
        | outcome.crit => outcome.crit
        | outcome.undefined => outcome.undefined
        | outcome.ret (error, t_error, log) =>
          if t_error ≠ 0 then
            outcome.ret (t_error, log ++ [runner_event.reqs_errors_log_summary])
          else
            outcome.ret (error, log ++ [runner_event.reqs_errors_log_summary,
              runner_event.db_rrdp_rem_nonvisited_tals])

/-! ## The update daemon `check_vrps_updates` -/

/-- What the collaborators of `check_vrps_updates` answer during one pass of its loop: the table
`roa_table_create` returns (`none` for `NULL`), the code of `perform_standalone_validation`,
the code of `vrps_update`, the code and the deltas of `compute_deltas`, and the code of
`notify_clients`. -/
structure daemon_cycle (T D : Type) where
  roa_table_create : Option T
  perform_standalone_validation : Int
  vrps_update : Int
  compute_deltas : Int × D
  notify_clients : Int

/-- The collaborator calls of `check_vrps_updates` that the log records; `vrps_update` is
recorded with its arguments and the code it returned. -/
inductive daemon_event (T D : Type) where
  | roa_table_create
  | perform_standalone_validation (arg : T)
  | roa_table_put (table : T)
  | vrps_update (table : T) (deltas : Option D) (error : Int)
  | compute_deltas (old_roas : T) (new_roas : T)
  | deltas_destroy (deltas : D)
  | notify_clients
  | sleep
deriving DecidableEq

/-- The state of the daemon at a `sleep`: the local variable `old_roas` and the calls made so
far. -/
structure daemon_state (T D : Type) where
  old_roas : Option T
  log : List (daemon_event T D)

/-- The state in which the loop of `check_vrps_updates` is entered: `old_roas = NULL`. -/
def daemon_start {T D : Type} : daemon_state T D := { old_roas := none, log := [] }

/-- One pass of the `do ... while (true)` of `check_vrps_updates`, up to and including its
`sleep`: the value of `old_roas` afterwards and the calls made. -/
def check_vrps_updates_iteration {T D : Type} (deltas_is_empty : D → Bool)
    (old_roas : Option T) (c : daemon_cycle T D) : Option T × List (daemon_event T D) :=
  match c.roa_table_create with
  | none => (old_roas, [daemon_event.roa_table_create, daemon_event.sleep])
  | some arg =>
    if c.perform_standalone_validation ≠ 0 then
      (old_roas, [daemon_event.roa_table_create, daemon_event.perform_standalone_validation arg,
        daemon_event.roa_table_put arg, daemon_event.sleep])
    else
      match old_roas with
      | none =>
        if c.vrps_update ≠ 0 then
          (none, [daemon_event.roa_table_create, daemon_event.perform_standalone_validation arg,
            daemon_event.vrps_update arg none c.vrps_update, daemon_event.roa_table_put arg,
            daemon_event.sleep])
        else
          (some arg, [daemon_event.roa_table_create,
            daemon_event.perform_standalone_validation arg,
            daemon_event.vrps_update arg none c.vrps_update, daemon_event.sleep])
      | some old =>
        if c.compute_deltas.1 ≠ 0 then
          (some old, [daemon_event.roa_table_create,
            daemon_event.perform_standalone_validation arg,
            daemon_event.compute_deltas old arg, daemon_event.roa_table_put arg,
            daemon_event.sleep])
        else if deltas_is_empty c.compute_deltas.2 then
          (some old, [daemon_event.roa_table_create,
            daemon_event.perform_standalone_validation arg,
            daemon_event.compute_deltas old arg, daemon_event.roa_table_put arg,
            daemon_event.deltas_destroy c.compute_deltas.2, daemon_event.sleep])
        else if c.vrps_update ≠ 0 then
          (some old, [daemon_event.roa_table_create,
            daemon_event.perform_standalone_validation arg,
            daemon_event.compute_deltas old arg,
            daemon_event.vrps_update arg (some c.compute_deltas.2) c.vrps_update,
            daemon_event.roa_table_put arg, daemon_event.deltas_destroy c.compute_deltas.2,
            daemon_event.sleep])
        else
          (some arg, [daemon_event.roa_table_create,
            daemon_event.perform_standalone_validation arg,
            daemon_event.compute_deltas old arg,
            daemon_event.vrps_update arg (some c.compute_deltas.2) c.vrps_update,
            daemon_event.notify_clients, daemon_event.sleep])

/-- One pass of the loop of `check_vrps_updates` as a step on the daemon state. -/
def check_vrps_updates_cycle {T D : Type} (deltas_is_empty : D → Bool)
    (s : daemon_state T D) (c : daemon_cycle T D) : daemon_state T D :=
  { old_roas := (check_vrps_updates_iteration deltas_is_empty s.old_roas c).1,
    log := s.log ++ (check_vrps_updates_iteration deltas_is_empty s.old_roas c).2 }

/-- The function `check_vrps_updates` run for the passes `cycles`: the state at the last
`sleep`. The loop never ends, so the states it reaches are these, one for every finite list of
passes. -/
def check_vrps_updates {T D : Type} (deltas_is_empty : D → Bool)
    (cycles : List (daemon_cycle T D)) : daemon_state T D :=
  cycles.foldl (check_vrps_updates_cycle deltas_is_empty) daemon_start

/-! ## Notions used to state the properties -/

/-- A line reader that returns the given lines without I/O error. -/
def from_lines (lines : List String) : line_file := lines.map (fun s => (0, s))

/-- An allocator that never fails. -/
def no_alloc_failure : Nat → Bool := fun _ => true

/-- A stream on which `ferror` never reports an error. -/
def no_ferror : Nat → Int := fun _ => 0

/-- The shape of the head of a TAL file: `lines` is some comment lines, then at least one URI
line, each non-empty and accepted by the URI constructor, the first one no comment, then a blank
line, then `rest`. -/
def tal_uri_block {U : Type} (uri_create_mixed_str : String → Int × U)
    (comments uri_lines rest lines : List String) : Prop :=
  lines = comments ++ uri_lines ++ "" :: rest ∧
  (∀ c ∈ comments, is_comment c = true) ∧
  uri_lines ≠ [] ∧
  (∀ l ∈ uri_lines, l ≠ "" ∧ (uri_create_mixed_str l).1 = 0) ∧
  (∀ l, uri_lines.head? = some l → is_comment l = false)

/-- The values `random_at_most` returns during the `n` passes of the shuffle loop that start at
index `i`. -/
def random_values {ρ : Type} (random_at_most : Int → ρ → Int × ρ) (count : Nat) :
    Nat → Nat → ρ → List Int
  | 0, _, _ => []
  | n + 1, i, rng =>
    (random_at_most (((count - 1 - i : Nat) : Int)) rng).1 ::
      random_values random_at_most count n (i + 1)
        (random_at_most (((count - 1 - i : Nat) : Int)) rng).2

/-- The lines of a text: the content between two line feeds, without the line feeds. -/
def output_lines (out : List Char) : List (List Char) := out.splitOn LF

/-- The bytes written for a list of chunks: what each pass writes, one after the other. -/
def sanitized_chunks : List (List Char) → List Char
  | [] => []
  | buf :: rest => base64_sanitize_chunk buf ++ sanitized_chunks rest

/-- A text with all its line feeds removed. -/
def without_line_feeds (text : List Char) : List Char := text.filter (fun c => c != LF)

/-- A stream whose every read returns all the bytes asked for. -/
def full_fread : Nat → List Char → Nat := fun asked _ => asked

/-- A stream whose first read already returns nothing. -/
def failed_fread : Nat → List Char → Nat := fun _ _ => 0

/-- A per-URI handler that always returns, as a callback of `foreach_uri`. -/
def handler_returns {U σ : Type} (handler : tal U → U → σ → Int × σ) :
    tal U → U → σ → outcome (Int × σ) :=
  fun t uri arg => outcome.ret (handler t uri arg)

/-- The handler `handler` made to record each of its calls: the URI it was called on and the
code it returned. -/
def handler_logged {U σ : Type} (handler : tal U → U → σ → Int × σ) :
    tal U → U → σ × List (U × Int) → outcome (Int × σ × List (U × Int)) :=
  fun t uri arg =>
    outcome.ret ((handler t uri arg.1).1, (handler t uri arg.1).2,
      arg.2 ++ [(uri, (handler t uri arg.1).1)])

/-- The calls the drain loop makes for the popped entries `deferred`, each given with the code
its traversal returns. -/
def drain_events {U R : Type} : List (deferred_cert U R × Int) → List (tal_event U R)
  | [] => []
  | d :: rest =>
    tal_event.deferstack_pop 0 :: tal_event.certificate_traverse (some d.1.pp) d.1.uri ::
      tal_event.uri_refput d.1.uri :: tal_event.rpp_refput d.1.pp :: drain_events rest

/-- The pids on which `pthread_join` was called, in the order of the calls. -/
def joined_pids : List runner_event → List Nat
  | [] => []
  | runner_event.pthread_join pid :: log => pid :: joined_pids log
  | _ :: log => joined_pids log

/-- The exit status of the first worker of the list whose exit status is not zero. -/
def first_error : List validation_thread → Option Int
  | [] => none
  | thread :: threads =>
    if thread.exit_status ≠ 0 then some thread.exit_status else first_error threads

/-- The effect of one call on the published table: a `vrps_update` that returned 0 installs its
table, every other call leaves the published table as it is. -/
def published_step {T D : Type} (published : Option T) : daemon_event T D → Option T
  | daemon_event.vrps_update table _ error => if error = 0 then some table else published
  | _ => published

/-- The table passed to the most recent `vrps_update` that returned 0, `none` if there was
none. -/
def published_table {T D : Type} (log : List (daemon_event T D)) : Option T :=
  log.foldl published_step none

/-- Whether a call is `vrps_update` or `notify_clients`. -/
def is_publication {T D : Type} : daemon_event T D → Bool
  | daemon_event.vrps_update _ _ _ => true
  | daemon_event.notify_clients => true
  | _ => false

/-! ## Concrete inputs used in the examples -/

/-- A URI constructor for the examples: it accepts a line longer than eight characters and
returns its length as the URI. -/
def sample_uri_create (s : String) : Int × Nat :=
  if s.length > 8 then (0, s.length) else (ENOTSUPPORTED, 0)

/-- The lines of a TAL file with one comment, two URIs, the blank line and a key line. -/
def sample_lines : List String :=
  ["# trust anchor", "rsync://a.example/ta.cer", "https://a.example/ta.cer", "", "MIIBIjAN"]

/-- The bytes after the blank line of a small TAL file: two lines of three characters, an empty
line and a last line without line feed. -/
def sample_body : List Char :=
  ['A', 'B', 'C', LF, 'D', 'E', 'F', LF, LF, 'G', 'H']

/-- The input on which the string handed back is cut: a NUL byte between `AB` and `CD`. -/
def body_with_nul : List Char := ['A', 'B', NUL, 'C', 'D']

/-- A small linear congruential random source whose draw lies in the range asked for. -/
def lcg (k : Int) (s : Nat) : Int × Nat := (((s : Int) % (k + 1)), (s * 5 + 3) % 16)

/-- A TAL with five URIs. -/
def sample_tal : tal Nat := tal.mk "sample.tal" (uris.mk [10, 20, 30, 40, 50] 8) []

/-- A join that always succeeds. -/
def join_ok : Nat → Int := fun _ => 0

/-- Two workers in join order, both with an error: 5 for the first, 7 for the second. -/
def two_failed_workers : List validation_thread :=
  [validation_thread.mk 1 "a.tal" 5, validation_thread.mk 2 "b.tal" 7]

/-- A pass of the daemon loop in which validation succeeds and `vrps_update` accepts the new
table 1. -/
def published_cycle : daemon_cycle Nat Nat := daemon_cycle.mk (some 1) 0 0 (0, 0) 0

/-- A pass of the daemon loop in which the validation run fails with -22 on the new table 2. -/
def failed_cycle : daemon_cycle Nat Nat := daemon_cycle.mk (some 2) (-22) 0 (0, 0) 0

/-- A handler for the examples: it counts its calls in the state, returns 0 on every URI except
30, and 1 on 30. -/
def sample_handler : tal Nat → Nat → Nat → Int × Nat :=
  fun _ uri calls => (if uri = 30 then 1 else 0, calls + 1)

/-- Collaborator answers in which everything succeeds and the stack hands over two deferred
certificates; the traversal of the first one fails with -22. -/
def walk_env : tal_uri_env Nat Nat :=
  tal_uri_env.mk 0 true 0 0 true 0 0 pubkey_state.PKS_VALID true
    [deferstack_pop_result.mk 0 (deferred_cert.mk 7 70) (-22),
      deferstack_pop_result.mk 0 (deferred_cert.mk 8 80) 0]

/-- Collaborator answers in which the root traversal fails with 5 after the key matched. -/
def root_rejected_env : tal_uri_env Nat Nat :=
  tal_uri_env.mk 0 true 0 0 true 0 5 pubkey_state.PKS_VALID true []

/-- Collaborator answers in which `db_rrdp_uris_set_all_unvisited` fails with the positive
code 12. -/
def rrdp_reset_fails_env : tal_uri_env Nat Nat :=
  tal_uri_env.mk 0 true 0 0 true 12 0 pubkey_state.PKS_UNTESTED true []

/-! ## The URI block of a TAL file (`read_uris`) -/

theorem from_lines_nil : from_lines [] = [] := rfl

theorem from_lines_cons (x : String) (xs : List String) :
    from_lines (x :: xs) = (0, x) :: from_lines xs := rfl

theorem pr_op_err_ne_zero : pr_op_err ≠ 0 := by decide

theorem is_comment_ne_empty {s : String} (h : is_comment s = true) : s ≠ "" := by
  rintro rfl
  simp [is_comment] at h

theorem uris_add_accept {U : Type} (create : String → Int × U) (u : uris U) (uri : String)
    (h : (create uri).1 = 0) :
    ∃ sz, uris_add create no_alloc_failure u uri = (0, { array := u.array ++ [(create uri).2], size := sz }) := by
  have hne : (0 : Int) ≠ ENOTSUPPORTED := by decide
  unfold uris_add
  rcases hc : create uri with ⟨e, n⟩
  rw [hc] at h
  simp only at h
  subst h
  simp only [if_neg hne, ne_eq, not_true_eq_false, if_false, no_alloc_failure, if_true]
  split
  · exact ⟨_, rfl⟩
  · exact ⟨_, rfl⟩

theorem uris_add_reject {U : Type} (create : String → Int × U) (realloc : Nat → Bool)
    (u : uris U) (uri : String) (h : (create uri).1 ≠ 0) :
    (uris_add create realloc u uri).1 ≠ 0 := by
  unfold uris_add
  rcases hc : create uri with ⟨e, n⟩
  rw [hc] at h
  simp only at h
  simp only
  by_cases he : e = ENOTSUPPORTED
  · simp only [if_pos he]
    exact pr_op_err_ne_zero
  · simp only [if_neg he, ne_eq, h, not_false_eq_true, if_true]

theorem read_uris_list_complete {U : Type} (create : String → Int × U) (rest : List String) :
    ∀ (us : List String) (u : uris U) (uri : String), (create uri).1 = 0 →
      (∀ l ∈ us, l ≠ "" ∧ (create l).1 = 0) →
      ∃ sz, read_uris_list create no_alloc_failure u uri (from_lines (us ++ "" :: rest)) =
        (0, { array := u.array ++ (uri :: us).map (fun l => (create l).2), size := sz },
          from_lines rest) := by
  intro us
  induction us with
  | nil =>
    intro u uri h _
    obtain ⟨sz, hsz⟩ := uris_add_accept create u uri h
    refine ⟨sz, ?_⟩
    simp [from_lines, read_uris_list, hsz]
  | cons x xs ih =>
    intro u uri h hall
    obtain ⟨sz, hsz⟩ := uris_add_accept create u uri h
    have hx := hall x (List.mem_cons_self _ _)
    obtain ⟨sz2, h2⟩ := ih { array := u.array ++ [(create uri).2], size := sz } x hx.2
      (fun l hl => hall l (List.mem_cons_of_mem _ hl))
    refine ⟨sz2, ?_⟩
    show read_uris_list create no_alloc_failure u uri ((0, x) :: from_lines (xs ++ "" :: rest)) = _
    simp only [read_uris_list, hsz, ne_eq, not_true_eq_false, if_false, hx.1]
    rw [h2]
    simp

theorem read_uris_list_sound {U : Type} (create : String → Int × U) :
    ∀ (lines : List String) (u : uris U) (uri : String),
      (read_uris_list create no_alloc_failure u uri (from_lines lines)).1 = 0 →
      (create uri).1 = 0 ∧ ∃ us rest, lines = us ++ "" :: rest ∧
        (∀ l ∈ us, l ≠ "" ∧ (create l).1 = 0) := by
  intro lines
  induction lines with
  | nil =>
    intro u uri h
    exfalso
    simp only [from_lines, List.map_nil, read_uris_list] at h
    split at h
    · rename_i hne; exact hne h
    · exact pr_op_err_ne_zero h
  | cons x xs ih =>
    intro u uri h
    by_cases hacc : (create uri).1 = 0
    · refine ⟨hacc, ?_⟩
      obtain ⟨sz, hsz⟩ := uris_add_accept create u uri hacc
      simp only [from_lines, List.map_cons, read_uris_list, hsz, ne_eq, not_true_eq_false,
        if_false] at h
      by_cases hx : x = ""
      · exact ⟨[], xs, by simp [hx], by simp⟩
      · simp only [hx, if_false] at h
        obtain ⟨hx0, us, rest, hl, hall⟩ := ih _ _ h
        refine ⟨x :: us, rest, by simp [hl], ?_⟩
        intro l hl
        rcases List.mem_cons.1 hl with rfl | hm
        · exact ⟨hx, hx0⟩
        · exact hall l hm
    · exfalso
      have hrej := uris_add_reject create no_alloc_failure u uri hacc
      simp only [from_lines, List.map_cons, read_uris_list] at h
      rcases hadd : uris_add create no_alloc_failure u uri with ⟨e, u1⟩
      rw [hadd] at h hrej
      simp only at hrej
      simp only [ne_eq, hrej, not_false_eq_true, if_true] at h

theorem read_uris_comments_complete (first : String) (rest : List String)
    (hne : first ≠ "") (hnc : is_comment first = false) :
    ∀ (cs : List String), (∀ c ∈ cs, is_comment c = true) →
      read_uris_comments (from_lines (cs ++ first :: rest)) = (0, some first, from_lines rest) := by
  intro cs
  induction cs with
  | nil =>
    intro _
    show read_uris_comments ((0, first) :: from_lines rest) = _
    simp [read_uris_comments, hne, hnc]
  | cons c cs ih =>
    intro hall
    have hc := hall c (List.mem_cons_self _ _)
    have hcne := is_comment_ne_empty hc
    have := ih (fun l hl => hall l (List.mem_cons_of_mem _ hl))
    show read_uris_comments ((0, c) :: from_lines (cs ++ first :: rest)) = _
    simp only [read_uris_comments, ne_eq, not_true_eq_false, if_false, hcne, hc, Bool.not_true,
      Bool.false_eq_true]
    exact this

theorem read_uris_comments_sound :
    ∀ (lines : List String) (curi : Option String) (lfile2 : line_file),
      read_uris_comments (from_lines lines) = (0, curi, lfile2) →
      ∃ cs first rest, curi = some first ∧ lfile2 = from_lines rest ∧
        lines = cs ++ first :: rest ∧ (∀ c ∈ cs, is_comment c = true) ∧
        first ≠ "" ∧ is_comment first = false := by
  intro lines
  induction lines with
  | nil =>
    intro curi lfile2 h
    simp only [from_lines, List.map_nil, read_uris_comments, Prod.mk.injEq] at h
    exact absurd h.1 pr_op_err_ne_zero
  | cons x xs ih =>
    intro curi lfile2 h
    simp only [from_lines, List.map_cons, read_uris_comments, ne_eq, not_true_eq_false,
      if_false] at h
    by_cases hx : x = ""
    · simp only [hx, if_true, Prod.mk.injEq] at h
      exact absurd h.1 pr_op_err_ne_zero
    · simp only [hx, if_false] at h
      by_cases hc : is_comment x = true
      · simp only [hc, Bool.not_true, Bool.false_eq_true, if_false] at h
        obtain ⟨cs, first, rest, h1, h2, h3, h4, h5, h6⟩ := ih curi lfile2 h
        refine ⟨x :: cs, first, rest, h1, h2, by simp [h3], ?_, h5, h6⟩
        intro c hcm
        rcases List.mem_cons.1 hcm with rfl | hm
        · exact hc
        · exact h4 c hm
      · have hc2 : is_comment x = false := by simpa using hc
        simp only [hc2, Bool.not_false, if_true, Prod.mk.injEq] at h
        exact ⟨[], x, xs, h.2.1.symm, h.2.2.symm, rfl, by simp, hx, hc2⟩

/-- A well-formed URI block is read with code 0, into the list of its URIs. -/
theorem read_uris_complete {U : Type} (create : String → Int × U)
    (comments uri_lines rest lines : List String)
    (h : tal_uri_block create comments uri_lines rest lines) :
    ∃ sz, read_uris create no_alloc_failure (from_lines lines) uris_init =
      (0, { array := uri_lines.map (fun l => (create l).2), size := sz }, from_lines rest) := by
  obtain ⟨hl, hcs, hne, hus, hhead⟩ := h
  cases uri_lines with
  | nil => exact absurd rfl hne
  | cons first us =>
    have hfirst := hus first (List.mem_cons_self _ _)
    have hfc : is_comment first = false := hhead first rfl
    have hus2 : ∀ l ∈ us, l ≠ "" ∧ (create l).1 = 0 :=
      fun l hm => hus l (List.mem_cons_of_mem _ hm)
    obtain ⟨sz, hsz⟩ := read_uris_list_complete create rest us uris_init first hfirst.2 hus2
    refine ⟨sz, ?_⟩
    cases comments with
    | nil =>
      subst hl
      show read_uris create no_alloc_failure ((0, first) :: from_lines (us ++ "" :: rest))
        uris_init = _
      simp only [read_uris, lfile_read, ne_eq, not_true_eq_false, if_false, hfirst.1, hfc,
        Bool.false_eq_true]
      rw [hsz]
      rfl
    | cons c cs =>
      have hc := hcs c (List.mem_cons_self _ _)
      have hcne := is_comment_ne_empty hc
      have hloop := read_uris_comments_complete first (us ++ "" :: rest) hfirst.1 hfc cs
        (fun l hm => hcs l (List.mem_cons_of_mem _ hm))
      subst hl
      show read_uris create no_alloc_failure
        ((0, c) :: from_lines (cs ++ first :: us ++ "" :: rest)) uris_init = _
      have hassoc : cs ++ first :: us ++ "" :: rest = cs ++ first :: (us ++ "" :: rest) := by
        simp
      simp only [read_uris, lfile_read, ne_eq, not_true_eq_false, if_false, hcne, hc, if_true,
        hassoc, hloop]
      rw [hsz]
      rfl

/-- When `read_uris` returns 0 the lines start with a well-formed URI block. -/
theorem read_uris_sound {U : Type} (create : String → Int × U) (lines : List String)
    (h : (read_uris create no_alloc_failure (from_lines lines) uris_init).1 = 0) :
    ∃ comments uri_lines rest, tal_uri_block create comments uri_lines rest lines := by
  cases lines with
  | nil =>
    simp only [from_lines_nil, read_uris, lfile_read, ne_eq, not_true_eq_false, if_false] at h
    exact absurd h pr_op_err_ne_zero
  | cons x xs =>
    rw [from_lines_cons] at h
    simp only [read_uris, lfile_read, ne_eq, not_true_eq_false, if_false] at h
    by_cases hx : x = ""
    · simp only [hx, if_true] at h
      exact absurd h pr_op_err_ne_zero
    · simp only [hx, if_false] at h
      by_cases hc : is_comment x = true
      · simp only [hc, if_true] at h
        rcases hloop : read_uris_comments (from_lines xs) with ⟨cerror, curi, lfile2⟩
        rw [hloop] at h
        simp only at h
        by_cases hce : cerror = 0
        · subst hce
          simp only [ne_eq, not_true_eq_false, if_false] at h
          obtain ⟨cs, first, rest0, h1, h2, h3, h4, h5, h6⟩ :=
            read_uris_comments_sound xs curi lfile2 hloop
          subst h1 h2
          simp only at h
          obtain ⟨hacc, us, rest, hl, hall⟩ := read_uris_list_sound create rest0 _ first h
          refine ⟨x :: cs, first :: us, rest, ?_, ?_, by simp, ?_, ?_⟩
          · simp [h3, hl]
          · intro c hcm
            rcases List.mem_cons.1 hcm with rfl | hm
            · exact hc
            · exact h4 c hm
          · intro l hlm
            rcases List.mem_cons.1 hlm with rfl | hm
            · exact ⟨h5, hacc⟩
            · exact hall l hm
          · intro l hl2
            simp only [List.head?_cons, Option.some.injEq] at hl2
            subst hl2
            exact h6
        · simp only [ne_eq, hce, not_false_eq_true, if_true] at h
      · have hc2 : is_comment x = false := by simpa using hc
        simp only [hc2, Bool.false_eq_true, if_false] at h
        obtain ⟨hacc, us, rest, hl, hall⟩ := read_uris_list_sound create xs _ x h
        refine ⟨[], x :: us, rest, by simp [hl], by simp, by simp, ?_, ?_⟩
        · intro l hlm
          rcases List.mem_cons.1 hlm with rfl | hm
          · exact ⟨hx, hacc⟩
          · exact hall l hm
        · intro l hl2
          simp only [List.head?_cons, Option.some.injEq] at hl2
          subst hl2
          exact hc2

/-- Claim C1: for every sequence of lines the line reader returns without I/O error, and with
no allocation failure, `read_uris` returns 0 exactly when the lines are: zero or more lines that
start with `#`, then one or more non-empty lines each accepted by the URI constructor (the first
of them not starting with `#`), then an empty line (anything may follow it, it is not read).
In that case the URI list is the constructor's result for exactly those URI lines, in file
order, so it is not empty, and the reader stands right after the empty line. On every other
input the result is not 0. -/
theorem read_uris_accepts_exactly_uri_block {U : Type} (uri_create_mixed_str : String → Int × U)
    (lines : List String) :
    ((read_uris uri_create_mixed_str no_alloc_failure (from_lines lines) uris_init).1 = 0 ↔
      ∃ comments uri_lines rest,
        tal_uri_block uri_create_mixed_str comments uri_lines rest lines) ∧
    (∀ comments uri_lines rest,
      tal_uri_block uri_create_mixed_str comments uri_lines rest lines →
      (read_uris uri_create_mixed_str no_alloc_failure (from_lines lines) uris_init).2.1.array =
        uri_lines.map (fun l => (uri_create_mixed_str l).2) ∧
      (read_uris uri_create_mixed_str no_alloc_failure (from_lines lines) uris_init).2.1.array ≠ [] ∧
      (read_uris uri_create_mixed_str no_alloc_failure (from_lines lines) uris_init).2.2 =
        from_lines rest) := by
  refine ⟨⟨read_uris_sound uri_create_mixed_str lines, ?_⟩, ?_⟩
  · rintro ⟨comments, uri_lines, rest, hb⟩
    obtain ⟨sz, hsz⟩ := read_uris_complete uri_create_mixed_str comments uri_lines rest lines hb
    rw [hsz]
  · intro comments uri_lines rest hb
    obtain ⟨sz, hsz⟩ := read_uris_complete uri_create_mixed_str comments uri_lines rest lines hb
    rw [hsz]
    refine ⟨rfl, ?_, rfl⟩
    have hne := hb.2.2.1
    simpa using hne

/-- The URI block of a TAL file with one comment and two URIs is accepted, and the list holds the two URIs in file order. -/
theorem read_uris_accepts_exactly_uri_block_witness :
    tal_uri_block sample_uri_create ["# trust anchor"]
      ["rsync://a.example/ta.cer", "https://a.example/ta.cer"] ["MIIBIjAN"] sample_lines ∧
    read_uris sample_uri_create no_alloc_failure (from_lines sample_lines) uris_init =
      (0, uris.mk [24, 24] 4, from_lines ["MIIBIjAN"]) ∧
    (read_uris sample_uri_create no_alloc_failure (from_lines sample_lines) uris_init).2.1.array =
      ["rsync://a.example/ta.cer", "https://a.example/ta.cer"].map
        (fun l => (sample_uri_create l).2) :=
  have hblock : tal_uri_block sample_uri_create ["# trust anchor"]
      ["rsync://a.example/ta.cer", "https://a.example/ta.cer"] ["MIIBIjAN"] sample_lines := by
    refine ⟨by decide, by decide, by decide, by decide, ?_⟩
    intro l hl
    simp only [List.head?_cons, Option.some.injEq] at hl
    subst hl
    decide
  ⟨hblock, by decide,
    ((read_uris_accepts_exactly_uri_block sample_uri_create sample_lines).2 _ _ _ hblock).1⟩

/-! ## The shuffle (`tal_shuffle_uris`) -/

theorem head_set_perm {U : Type} (x : U) :
    ∀ (t : List U) (j : Nat) (hj : j < t.length), (t[j] :: t.set j x).Perm (x :: t) := by
  intro t
  induction t with
  | nil => intro j hj; simp at hj
  | cons y t ih =>
    intro j hj
    cases j with
    | zero => simp only [List.getElem_cons_zero, List.set_cons_zero]; exact List.Perm.swap _ _ _
    | succ j =>
      simp only [List.getElem_cons_succ, List.set_cons_succ]
      have hj2 : j < t.length := by simpa using hj
      exact ((List.Perm.swap _ _ _).trans ((ih j hj2).cons y)).trans (List.Perm.swap _ _ _)

/-- Exchanging two entries of a list gives a permutation of it. -/
theorem swap_entries_perm {U : Type} :
    ∀ (l : List U) (i j : Nat) (hi : i < l.length) (hj : j < l.length),
      ((l.set i l[j]).set j l[i]).Perm l := by
  intro l
  induction l with
  | nil => intro i j hi; simp at hi
  | cons x t ih =>
    intro i j hi hj
    cases i with
    | zero =>
      cases j with
      | zero => simp
      | succ j =>
        simp only [List.getElem_cons_succ, List.set_cons_zero, List.set_cons_succ,
          List.getElem_cons_zero]
        exact head_set_perm x t j (by simpa using hj)
    | succ i =>
      cases j with
      | zero =>
        simp only [List.getElem_cons_succ, List.set_cons_zero, List.set_cons_succ,
          List.getElem_cons_zero]
        exact head_set_perm x t i (by simpa using hi)
      | succ j =>
        simp only [List.getElem_cons_succ, List.set_cons_succ]
        exact (ih i j (by simpa using hi) (by simpa using hj)).cons x

theorem lcg_bound : ∀ (k : Int) (s : Nat), 0 ≤ k → 0 ≤ (lcg k s).1 ∧ (lcg k s).1 ≤ k := by
  intro k s hk
  simp only [lcg]
  constructor
  · exact Int.emod_nonneg _ (by omega)
  · have := Int.emod_lt_of_pos (s : Int) (show (0 : Int) < k + 1 by omega)
    omega

/-- Invariant of the shuffle loop: the run stays inside the array and keeps a permutation of it. -/
theorem tal_shuffle_uris_loop_perm {U ρ : Type} (rand : Int → ρ → Int × ρ)
    (hrand : ∀ (k : Int) (s : ρ), 0 ≤ k → 0 ≤ (rand k s).1 ∧ (rand k s).1 ≤ k) (count : Nat) :
    ∀ (n i : Nat) (array : List U) (s : ρ), i + n = count → array.length = count →
      ∃ array1 s1, tal_shuffle_uris_loop rand count n i array s = some (array1, s1) ∧
        array1.length = count ∧ array1.Perm array := by
  intro n
  induction n with
  | zero =>
    intro i array s _ hlen
    exact ⟨array, s, rfl, hlen, List.Perm.refl _⟩
  | succ n ih =>
    intro i array s hin hlen
    have hr := hrand (((count - 1 - i : Nat) : Int)) s (Int.natCast_nonneg _)
    rcases hdraw : rand (((count - 1 - i : Nat) : Int)) s with ⟨r, s1⟩
    rw [hdraw] at hr
    simp only at hr
    have hi : i < array.length := by omega
    have h0 : 0 ≤ r + (i : Int) := by omega
    have hidx : (r + (i : Int)).toNat < array.length := by omega
    have hcond : i < array.length ∧ 0 ≤ r + (i : Int) ∧ (r + (i : Int)).toNat < array.length :=
      ⟨hi, h0, hidx⟩
    obtain ⟨a2, s2, hrun, hl2, hp2⟩ :=
      ih (i + 1) ((array.set i array[(r + (i : Int)).toNat]).set (r + (i : Int)).toNat array[i])
        s1 (by omega) (by simp [hlen])
    refine ⟨a2, s2, ?_, hl2, hp2.trans (swap_entries_perm array i _ hi hidx)⟩
    simp only [tal_shuffle_uris_loop, hdraw, hcond, and_self, dite_true]
    exact hrun

/-- The shuffle loop depends on the random source only through the values drawn. -/
theorem tal_shuffle_uris_loop_values {U ρ σ : Type} (rand1 : Int → ρ → Int × ρ)
    (rand2 : Int → σ → Int × σ) (count : Nat) :
    ∀ (n i : Nat) (array : List U) (s1 : ρ) (s2 : σ),
      random_values rand1 count n i s1 = random_values rand2 count n i s2 →
      (tal_shuffle_uris_loop rand1 count n i array s1).map Prod.fst =
        (tal_shuffle_uris_loop rand2 count n i array s2).map Prod.fst := by
  intro n
  induction n with
  | zero => intro i array s1 s2 _; rfl
  | succ n ih =>
    intro i array s1 s2 hv
    simp only [random_values, List.cons.injEq] at hv
    obtain ⟨hhead, htail⟩ := hv
    rcases h1 : rand1 (((count - 1 - i : Nat) : Int)) s1 with ⟨r1, t1⟩
    rcases h2 : rand2 (((count - 1 - i : Nat) : Int)) s2 with ⟨r2, t2⟩
    rw [h1, h2] at hhead htail
    simp only at hhead htail
    subst hhead
    simp only [tal_shuffle_uris_loop, h1, h2]
    split
    · exact ih _ _ _ _ htail
    · rfl

/-- Claim C8: for every TAL and every random source whose `random_at_most k` returns a value
in `[0, k]`, `tal_shuffle_uris` only touches indices inside the array (the run is defined), it
leaves the count, the capacity, the file name and the key unchanged, and the array afterwards is
a permutation of the array before. The result is determined by the values drawn: a second random
source that returns the same sequence of values gives the same TAL. -/
theorem tal_shuffle_uris_permutes {U ρ : Type} (random_at_most : Int → ρ → Int × ρ)
    (hrand : ∀ (k : Int) (s : ρ), 0 ≤ k →
      0 ≤ (random_at_most k s).1 ∧ (random_at_most k s).1 ≤ k)
    (t : tal U) (rng : ρ) :
    (∃ shuffled rng1, tal_shuffle_uris random_at_most t rng =
        some (tal.mk t.file_name (uris.mk shuffled t.uris.size) t.spki, rng1) ∧
      shuffled.length = t.uris.count ∧ shuffled.Perm t.uris.array) ∧
    (∀ (σ : Type) (other : Int → σ → Int × σ) (seed : σ),
      random_values other t.uris.count t.uris.count 0 seed =
        random_values random_at_most t.uris.count t.uris.count 0 rng →
      (tal_shuffle_uris other t seed).map Prod.fst =
        (tal_shuffle_uris random_at_most t rng).map Prod.fst) := by
  refine ⟨?_, ?_⟩
  · obtain ⟨a, r, hrun, hlen, hperm⟩ :=
      tal_shuffle_uris_loop_perm random_at_most hrand t.uris.count t.uris.count 0 t.uris.array
        rng (by omega) rfl
    exact ⟨a, r, by simp [tal_shuffle_uris, hrun], hlen, hperm⟩
  · intro σ other seed hv
    have h := tal_shuffle_uris_loop_values other random_at_most t.uris.count t.uris.count 0
      t.uris.array seed rng hv
    unfold tal_shuffle_uris
    cases h1 : tal_shuffle_uris_loop other t.uris.count t.uris.count 0 t.uris.array seed <;>
      cases h2 : tal_shuffle_uris_loop random_at_most t.uris.count t.uris.count 0
        t.uris.array rng <;>
      simp_all

/-- The shuffle of five URIs with the random source `lcg` started at 7. -/
theorem tal_shuffle_uris_permutes_witness :
    (∀ (k : Int) (s : Nat), 0 ≤ k → 0 ≤ (lcg k s).1 ∧ (lcg k s).1 ≤ k) ∧
    tal_shuffle_uris lcg sample_tal 7 =
      some (tal.mk "sample.tal" (uris.mk [30, 40, 20, 10, 50] 8) [], 10) ∧
    (∃ shuffled rng1, tal_shuffle_uris lcg sample_tal 7 =
        some (tal.mk sample_tal.file_name (uris.mk shuffled sample_tal.uris.size)
          sample_tal.spki, rng1) ∧
      shuffled.length = sample_tal.uris.count ∧ shuffled.Perm sample_tal.uris.array) :=
  ⟨lcg_bound, by decide, (tal_shuffle_uris_permutes lcg lcg_bound sample_tal 7).1⟩

/-! ## Line lengths produced by `base64_sanitize` -/

/-- One pass of the read loop when `fread` returned bytes and `ferror` is clear. -/
theorem base64_sanitize_loop_step (ferror : Nat → Int) (original_size : Nat)
    (fd result : List Char) (hread : (fd.take (fread_size original_size)).length > 0)
    (herr : ferror original_size = 0) :
    base64_sanitize_loop ferror original_size fd result =
      base64_sanitize_loop ferror
        (original_size - (fd.take (fread_size original_size)).length)
        (fd.drop (fread_size original_size))
        (result ++ base64_sanitize_chunk (fd.take (fread_size original_size))) := by
  rw [base64_sanitize_loop, if_pos hread, if_neg (by simp [herr])]

/-- The read loop ends when `fread` returns nothing. -/
theorem base64_sanitize_loop_done (ferror : Nat → Int) (original_size : Nat)
    (fd result : List Char) (hread : (fd.take (fread_size original_size)).length = 0) :
    base64_sanitize_loop ferror original_size fd result = (0, result) := by
  rw [base64_sanitize_loop, if_neg (by omega)]

theorem base64_sanitize_loop_unroll (ferror : Nat → Int) (original_size : Nat)
    (fd result buf : List Char) (size1 : Nat) (fd1 result1 : List Char)
    (hbuf : fd.take (fread_size original_size) = buf) (hread : buf.length > 0)
    (herr : ferror original_size = 0) (hsize : original_size - buf.length = size1)
    (hfd : fd.drop (fread_size original_size) = fd1)
    (hres : result ++ base64_sanitize_chunk buf = result1) :
    base64_sanitize_loop ferror original_size fd result =
      base64_sanitize_loop ferror size1 fd1 result1 := by
  subst hbuf hsize hfd hres
  exact base64_sanitize_loop_step ferror original_size fd result hread herr

set_option maxRecDepth 100000 in
/-- The read loop on 130 bytes without line feed: two chunks of 65 bytes. -/
theorem base64_sanitize_loop_130 :
    base64_sanitize_loop no_ferror 130 (List.replicate 130 'A') [] =
      (0, List.replicate 64 'A' ++ LF :: (List.replicate 65 'A' ++ [LF, 'A'])) := by
  have h1 : base64_sanitize_loop no_ferror 130 (List.replicate 130 'A') [] =
      base64_sanitize_loop no_ferror 65 (List.replicate 65 'A')
        (List.replicate 64 'A' ++ [LF, 'A']) :=
    base64_sanitize_loop_unroll no_ferror 130 _ _ (List.replicate 65 'A') _ _ _
      (by decide) (by decide) rfl (by decide) (by decide) (by decide)
  have h2 : base64_sanitize_loop no_ferror 65 (List.replicate 65 'A')
        (List.replicate 64 'A' ++ [LF, 'A']) =
      base64_sanitize_loop no_ferror 0 []
        (List.replicate 64 'A' ++ LF :: (List.replicate 65 'A' ++ [LF, 'A'])) :=
    base64_sanitize_loop_unroll no_ferror 65 _ _ (List.replicate 65 'A') _ _ _
      (by decide) (by decide) rfl (by decide) (by decide) (by decide)
  rw [h1, h2]
  exact base64_sanitize_loop_done no_ferror 0 [] _ (by decide)

set_option maxRecDepth 100000 in
/-- Claim C9 fails on the code: for the 130 bytes `A...A` (no line feed) after the blank
separator, `base64_sanitize` succeeds and writes 64 `A`, a line feed, 65 `A`, a line feed and one
`A`. The second line of the output holds 65 content characters, 66 with its line feed, and the
last line has no line feed. -/
theorem base64_sanitize_emits_line_of_65 :
    base64_sanitize no_alloc_failure no_ferror (List.replicate 130 'A') =
      (0, some (List.replicate 64 'A' ++ LF :: (List.replicate 65 'A' ++ [LF, 'A']))) ∧
    output_lines (List.replicate 64 'A' ++ LF :: (List.replicate 65 'A' ++ [LF, 'A'])) =
      [List.replicate 64 'A', List.replicate 65 'A', ['A']] := by
  constructor
  · unfold base64_sanitize
    simp only [List.length_replicate, base64_sanitize_loop_130]
    decide
  · decide

/-! ## Joining the workers (`perform_standalone_validation`) -/

theorem joined_pids_append (a b : List runner_event) :
    joined_pids (a ++ b) = joined_pids a ++ joined_pids b := by
  induction a with
  | nil => rfl
  | cons e a ih => cases e <;> simp [joined_pids, ih]

/-- What the join loop computes when every join succeeds: it joins each thread once in list order, never calls the prune, and `t_error` ends as the exit status of the last erroring thread (or as it started when there is none). -/
theorem wait_for_all_spec (pthread_join : Nat → Int) :
    ∀ (threads : List validation_thread) (error t_error : Int) (log : List runner_event),
      (∀ t ∈ threads, pthread_join t.pid = 0) → error = 0 →
      ∃ t_error1 log1,
        wait_for_all pthread_join threads error t_error log = outcome.ret (0, t_error1, log1) ∧
        joined_pids log1 = joined_pids log ++ threads.map (fun t => t.pid) ∧
        (runner_event.db_rrdp_rem_nonvisited_tals ∈ log1 ↔
          runner_event.db_rrdp_rem_nonvisited_tals ∈ log) ∧
        (t_error1 = 0 ↔ t_error = 0 ∧ ∀ t ∈ threads, t.exit_status = 0) ∧
        ((∀ t ∈ threads, t.exit_status = 0) → t_error1 = t_error) ∧
        (∀ pre t post, threads = pre ++ t :: post → t.exit_status ≠ 0 →
          (∀ p ∈ post, p.exit_status = 0) → t_error1 = t.exit_status) := by
  intro threads
  induction threads with
  | nil =>
    intro error t_error log _ herr
    subst herr
    refine ⟨t_error, log, rfl, by simp, Iff.rfl, by simp, fun _ => rfl, ?_⟩
    intro pre t post h
    simp at h
  | cons thread threads ih =>
    intro error t_error log hjoin _
    have hj : pthread_join thread.pid = 0 := hjoin thread (List.mem_cons_self _ _)
    have hrest : ∀ t ∈ threads, pthread_join t.pid = 0 :=
      fun t ht => hjoin t (List.mem_cons_of_mem _ ht)
    by_cases hs : thread.exit_status = 0
    · obtain ⟨t1, l1, hrun, hjoined, hrem, hzero, hkeep, hlast⟩ :=
        ih (pthread_join thread.pid) t_error
          (log ++ [runner_event.pthread_join thread.pid, runner_event.thread_destroy thread.pid])
          hrest hj
      refine ⟨t1, l1, ?_, ?_, ?_, ?_, ?_, ?_⟩
      · simp only [wait_for_all, hj, ne_eq, not_true_eq_false, if_false, hs]
        simpa only [hj] using hrun
      · rw [hjoined, joined_pids_append]
        simp [joined_pids]
      · rw [hrem]
        simp
      · rw [hzero]
        simp [hs]
      · intro hall
        exact hkeep (fun t ht => hall t (List.mem_cons_of_mem _ ht))
      · intro pre t post hsplit hne hpost
        cases pre with
        | nil =>
          simp only [List.nil_append, List.cons.injEq] at hsplit
          exact absurd (hsplit.1 ▸ hs) hne
        | cons p pre =>
          simp only [List.cons_append, List.cons.injEq] at hsplit
          exact hlast pre t post hsplit.2 hne hpost
    · obtain ⟨t1, l1, hrun, hjoined, hrem, hzero, hkeep, hlast⟩ :=
        ih (pthread_join thread.pid) thread.exit_status
          (log ++ [runner_event.pthread_join thread.pid, runner_event.thread_destroy thread.pid])
          hrest hj
      refine ⟨t1, l1, ?_, ?_, ?_, ?_, ?_, ?_⟩
      · simp only [wait_for_all, hj, ne_eq, not_true_eq_false, if_false, hs, not_false_eq_true,
          if_true]
        simpa only [hj] using hrun
      · rw [hjoined, joined_pids_append]
        simp [joined_pids]
      · rw [hrem]
        simp
      · rw [hzero]
        simp [hs]
      · intro hall
        exact absurd (hall thread (List.mem_cons_self _ _)) hs
      · intro pre t post hsplit hne hpost
        cases pre with
        | nil =>
          simp only [List.nil_append, List.cons.injEq] at hsplit
          obtain ⟨h1, h2⟩ := hsplit
          subst h1 h2
          exact hkeep hpost
        | cons p pre =>
          simp only [List.cons_append, List.cons.injEq] at hsplit
          exact hlast pre t post hsplit.2 hne hpost

/-- Claim C5: for every list of spawned workers (the spawning pass returned 0 and the
allocation of `param` succeeded), every assignment of exit statuses and joins that succeed,
`perform_standalone_validation` returns, having joined every worker once, in list order. It
returns 0 if and only if every exit status is 0. When some exit status is not 0 it returns a
non-zero code and `db_rrdp_rem_nonvisited_tals` is not called; when all are 0 the prune is
called. -/
theorem perform_standalone_validation_all_or_nothing (threads : List validation_thread)
    (pthread_join : Nat → Int) (hjoin : ∀ t ∈ threads, pthread_join t.pid = 0) :
    ∃ error log,
      perform_standalone_validation true (0, threads) pthread_join = outcome.ret (error, log) ∧
      joined_pids log = threads.map (fun t => t.pid) ∧
      (error = 0 ↔ ∀ t ∈ threads, t.exit_status = 0) ∧
      ((∃ t ∈ threads, t.exit_status ≠ 0) →
        error ≠ 0 ∧ runner_event.db_rrdp_rem_nonvisited_tals ∉ log) ∧
      ((∀ t ∈ threads, t.exit_status = 0) →
        runner_event.db_rrdp_rem_nonvisited_tals ∈ log) := by
  obtain ⟨t1, l1, hrun, hjoined, hrem, hzero, _, _⟩ :=
    wait_for_all_spec pthread_join threads 0 0 [runner_event.db_rrdp_reset_visited_tals]
      hjoin rfl
  have hrem2 : runner_event.db_rrdp_rem_nonvisited_tals ∉ l1 := by
    rw [hrem]
    simp
  have hj0 : joined_pids l1 = threads.map (fun t => t.pid) := by
    rw [hjoined]
    simp [joined_pids]
  by_cases ht : t1 = 0
  · have hall := (hzero.1 ht).2
    refine ⟨0, l1 ++ [runner_event.reqs_errors_log_summary,
      runner_event.db_rrdp_rem_nonvisited_tals], ?_, ?_, ?_, ?_, ?_⟩
    · simp [perform_standalone_validation, hrun, ht]
    · rw [joined_pids_append, hj0]
      simp [joined_pids]
    · exact ⟨fun _ => hall, fun _ => rfl⟩
    · rintro ⟨t, htm, hne⟩
      exact absurd (hall t htm) hne
    · intro _
      simp
  · refine ⟨t1, l1 ++ [runner_event.reqs_errors_log_summary], ?_, ?_, ?_, ?_, ?_⟩
    · simp [perform_standalone_validation, hrun, ht]
    · rw [joined_pids_append, hj0]
      simp [joined_pids]
    · constructor
      · intro h
        exact absurd h ht
      · intro hall
        exact absurd (hzero.2 ⟨rfl, hall⟩) ht
    · intro _
      refine ⟨ht, ?_⟩
      simp [hrem2]
    · intro hall
      exact absurd (hzero.2 ⟨rfl, hall⟩) ht

/-- Two joined workers, both with an error: the result is not 0 and the prune is not run. -/
theorem perform_standalone_validation_all_or_nothing_witness :
    (∀ t ∈ two_failed_workers, join_ok t.pid = 0) ∧
    ∃ error log,
      perform_standalone_validation true (0, two_failed_workers) join_ok =
        outcome.ret (error, log) ∧
      joined_pids log = two_failed_workers.map (fun t => t.pid) ∧
      (error = 0 ↔ ∀ t ∈ two_failed_workers, t.exit_status = 0) ∧
      ((∃ t ∈ two_failed_workers, t.exit_status ≠ 0) →
        error ≠ 0 ∧ runner_event.db_rrdp_rem_nonvisited_tals ∉ log) ∧
      ((∀ t ∈ two_failed_workers, t.exit_status = 0) →
        runner_event.db_rrdp_rem_nonvisited_tals ∈ log) :=
  ⟨by decide, perform_standalone_validation_all_or_nothing two_failed_workers join_ok
    (by decide)⟩

/-- Counterexample to claim C6: with two workers joined in the order 1, 2 whose exit statuses
are 5 and 7, `perform_standalone_validation` returns 7, the status of the second one, while the
first erroring worker in join order has status 5. -/
theorem perform_standalone_validation_not_first_error :
    perform_standalone_validation true (0, two_failed_workers) join_ok =
      outcome.ret (7, [runner_event.db_rrdp_reset_visited_tals, runner_event.pthread_join 1,
        runner_event.thread_destroy 1, runner_event.pthread_join 2,
        runner_event.thread_destroy 2, runner_event.reqs_errors_log_summary]) ∧
    first_error two_failed_workers = some 5 := by
  decide

/-- Claim C6 as amended: for every list of joined workers in which at least one has a non-zero
exit status, the code `perform_standalone_validation` returns is the exit status of the last
erroring worker in join order: every erroring worker joined later replaces the error
remembered so far. -/
theorem perform_standalone_validation_returns_last_error (pre post : List validation_thread)
    (t : validation_thread) (pthread_join : Nat → Int)
    (hjoin : ∀ w ∈ pre ++ t :: post, pthread_join w.pid = 0)
    (ht : t.exit_status ≠ 0) (hpost : ∀ w ∈ post, w.exit_status = 0) :
    ∃ log, perform_standalone_validation true (0, pre ++ t :: post) pthread_join =
      outcome.ret (t.exit_status, log) := by
  obtain ⟨t1, l1, hrun, _, _, _, _, hlast⟩ :=
    wait_for_all_spec pthread_join (pre ++ t :: post) 0 0
      [runner_event.db_rrdp_reset_visited_tals] hjoin rfl
  have h1 : t1 = t.exit_status := hlast pre t post rfl ht hpost
  subst h1
  exact ⟨l1 ++ [runner_event.reqs_errors_log_summary],
    by simp [perform_standalone_validation, hrun, ht]⟩

/-- Three workers joined in order with exit statuses 5, 7 and 0: the result is 7. -/
theorem perform_standalone_validation_returns_last_error_witness :
    (∀ w ∈ [validation_thread.mk 1 "a.tal" 5] ++ validation_thread.mk 2 "b.tal" 7 ::
      [validation_thread.mk 3 "c.tal" 0], join_ok w.pid = 0) ∧
    (validation_thread.mk 2 "b.tal" 7).exit_status ≠ 0 ∧
    (∀ w ∈ [validation_thread.mk 3 "c.tal" 0], w.exit_status = 0) ∧
    ∃ log, perform_standalone_validation true
      (0, [validation_thread.mk 1 "a.tal" 5] ++ validation_thread.mk 2 "b.tal" 7 ::
        [validation_thread.mk 3 "c.tal" 0]) join_ok =
      outcome.ret ((validation_thread.mk 2 "b.tal" 7).exit_status, log) :=
  ⟨by decide, by decide, by decide,
    perform_standalone_validation_returns_last_error [validation_thread.mk 1 "a.tal" 5]
      [validation_thread.mk 3 "c.tal" 0] (validation_thread.mk 2 "b.tal" 7) join_ok
      (by decide) (by decide) (by decide)⟩

/-! ## The update daemon keeps `old_roas` equal to the published table -/

theorem published_table_append {T D : Type} (log evs : List (daemon_event T D)) :
    published_table (log ++ evs) = evs.foldl published_step (published_table log) := by
  simp [published_table, List.foldl_append]

/-- One pass of the daemon loop moves `old_roas` exactly as its calls move the published table. -/
theorem check_vrps_updates_iteration_inv {T D : Type} (deltas_is_empty : D → Bool)
    (old_roas : Option T) (c : daemon_cycle T D) :
    (check_vrps_updates_iteration deltas_is_empty old_roas c).1 =
      (check_vrps_updates_iteration deltas_is_empty old_roas c).2.foldl published_step
        old_roas := by
  cases hc : c.roa_table_create with
  | none => simp [check_vrps_updates_iteration, hc, published_step]
  | some arg =>
    by_cases hv : c.perform_standalone_validation = 0
    · cases old_roas with
      | none =>
        by_cases hu : c.vrps_update = 0 <;>
          simp [check_vrps_updates_iteration, hc, published_step, hv, hu]
      | some old =>
        by_cases hd : c.compute_deltas.1 = 0
        · by_cases he : deltas_is_empty c.compute_deltas.2 = true
          · simp [check_vrps_updates_iteration, hc, published_step, hv, hd, he]
          · by_cases hu : c.vrps_update = 0 <;>
              simp [check_vrps_updates_iteration, hc, published_step, hv, hd, he, hu]
        · simp [check_vrps_updates_iteration, hc, published_step, hv, hd]
    · simp [check_vrps_updates_iteration, hc, published_step, hv]

theorem check_vrps_updates_cycle_inv {T D : Type} (deltas_is_empty : D → Bool)
    (s : daemon_state T D) (c : daemon_cycle T D)
    (h : s.old_roas = published_table s.log) :
    (check_vrps_updates_cycle deltas_is_empty s c).old_roas =
      published_table (check_vrps_updates_cycle deltas_is_empty s c).log := by
  simp only [check_vrps_updates_cycle, published_table_append, ← h]
  exact check_vrps_updates_iteration_inv deltas_is_empty s.old_roas c

theorem check_vrps_updates_foldl_inv {T D : Type} (deltas_is_empty : D → Bool) :
    ∀ (cycles : List (daemon_cycle T D)) (s : daemon_state T D),
      s.old_roas = published_table s.log →
      (cycles.foldl (check_vrps_updates_cycle deltas_is_empty) s).old_roas =
        published_table (cycles.foldl (check_vrps_updates_cycle deltas_is_empty) s).log := by
  intro cycles
  induction cycles with
  | nil => intro s h; exact h
  | cons c cycles ih =>
    intro s h
    exact ih _ (check_vrps_updates_cycle_inv deltas_is_empty s c h)

/-- A pass with a failed validation run or with empty deltas publishes nothing and keeps `old_roas`. -/
theorem check_vrps_updates_iteration_quiet {T D : Type} (deltas_is_empty : D → Bool)
    (old_roas : Option T) (c : daemon_cycle T D)
    (h : c.perform_standalone_validation ≠ 0 ∨
      (old_roas.isSome = true ∧ c.compute_deltas.1 = 0 ∧
        deltas_is_empty c.compute_deltas.2 = true)) :
    (check_vrps_updates_iteration deltas_is_empty old_roas c).1 = old_roas ∧
      ∀ e ∈ (check_vrps_updates_iteration deltas_is_empty old_roas c).2,
        is_publication e = false := by
  cases hc : c.roa_table_create with
  | none => simp [check_vrps_updates_iteration, hc, is_publication]
  | some arg =>
    by_cases hv : c.perform_standalone_validation = 0
    · rcases h with h | ⟨ho, hd, he⟩
      · exact absurd hv h
      · cases old_roas with
        | none => simp at ho
        | some old => simp [check_vrps_updates_iteration, hc, is_publication, hv, hd, he]
    · simp [check_vrps_updates_iteration, hc, is_publication, hv]

theorem published_table_quiet {T D : Type} (published : Option T) :
    ∀ (evs : List (daemon_event T D)), (∀ e ∈ evs, is_publication e = false) →
      evs.foldl published_step published = published := by
  intro evs
  induction evs with
  | nil => intro _; rfl
  | cons e evs ih =>
    intro h
    have he := h e (List.mem_cons_self _ _)
    have hrest := ih (fun x hx => h x (List.mem_cons_of_mem _ hx))
    cases e <;> simp_all [published_step, is_publication]

/-- Claim C7: in every state the loop of `check_vrps_updates` reaches at a `sleep`, `old_roas`
is the table passed to the most recent `vrps_update` that returned 0, and is absent if none has.
A pass in which the validation run fails, or in which deltas were computed and are empty, calls
neither `vrps_update` nor `notify_clients` and leaves `old_roas` and the published table
unchanged. -/
theorem check_vrps_updates_old_roas_is_last_published {T D : Type}
    (deltas_is_empty : D → Bool) (cycles : List (daemon_cycle T D)) :
    (check_vrps_updates deltas_is_empty cycles).old_roas =
      published_table (check_vrps_updates deltas_is_empty cycles).log ∧
    ∀ c : daemon_cycle T D,
      (c.perform_standalone_validation ≠ 0 ∨
        ((check_vrps_updates deltas_is_empty cycles).old_roas.isSome = true ∧
          c.compute_deltas.1 = 0 ∧ deltas_is_empty c.compute_deltas.2 = true)) →
      (check_vrps_updates deltas_is_empty (cycles ++ [c])).old_roas =
        (check_vrps_updates deltas_is_empty cycles).old_roas ∧
      published_table (check_vrps_updates deltas_is_empty (cycles ++ [c])).log =
        published_table (check_vrps_updates deltas_is_empty cycles).log ∧
      ∃ evs, (check_vrps_updates deltas_is_empty (cycles ++ [c])).log =
          (check_vrps_updates deltas_is_empty cycles).log ++ evs ∧
        ∀ e ∈ evs, is_publication e = false := by
  refine ⟨check_vrps_updates_foldl_inv deltas_is_empty cycles daemon_start rfl, ?_⟩
  intro c h
  have hstep : check_vrps_updates deltas_is_empty (cycles ++ [c]) =
      check_vrps_updates_cycle deltas_is_empty (check_vrps_updates deltas_is_empty cycles) c := by
    simp [check_vrps_updates, List.foldl_append]
  obtain ⟨h1, h3⟩ := check_vrps_updates_iteration_quiet deltas_is_empty _ c h
  rw [hstep]
  refine ⟨h1, ?_, _, rfl, h3⟩
  simp only [check_vrps_updates_cycle, published_table_append]
  exact published_table_quiet _ _ h3


/-- A pass that publishes table 1, followed by a pass whose validation run fails: `old_roas` stays table 1. -/
theorem check_vrps_updates_old_roas_is_last_published_witness :
    (check_vrps_updates (fun d : Nat => decide (d = 0)) [published_cycle]).old_roas = some 1 ∧
    (check_vrps_updates (fun d : Nat => decide (d = 0))
      ([published_cycle] ++ [failed_cycle])).old_roas =
        (check_vrps_updates (fun d : Nat => decide (d = 0)) [published_cycle]).old_roas :=
  ⟨by decide,
    ((check_vrps_updates_old_roas_is_last_published (fun d : Nat => decide (d = 0))
      [published_cycle]).2 failed_cycle (Or.inl (by decide))).1⟩

/-! ## The per-URI handler (`handle_tal_uri`) and the loop over the URIs -/

theorem ENSURE_NEGATIVE_neg (error : Int) (h : error ≠ 0) : ENSURE_NEGATIVE error < 0 := by
  unfold ENSURE_NEGATIVE
  split <;> omega

theorem ENSURE_NEGATIVE_nonpos (error : Int) : ENSURE_NEGATIVE error ≤ 0 := by
  unfold ENSURE_NEGATIVE
  split <;> omega

/-- Claim C2: once `validation_prepare` has succeeded, `handle_tal_uri` classifies failures as
follows. If the fetch of the URI fails it returns 0. If the fetch succeeded and the URI is not a
certificate file it returns a strictly negative value. If the root `certificate_traverse` fails
it returns 0 when the public-key state is `PKS_INVALID`, and a strictly negative value when the
state is `PKS_VALID` or `PKS_UNTESTED`. -/
theorem handle_tal_uri_soft_and_hard_errors {U R : Type}
    (world : List (tal_event U R) → U → tal_uri_env U R) (t : tal U) (uri : U)
    (log : List (tal_event U R)) (hprep : (world log uri).validation_prepare = 0) :
    ((fetch_tal_uri (world log uri) uri).1 ≠ 0 →
      ∃ log1, handle_tal_uri world t uri log = outcome.ret (0, log1)) ∧
    ((fetch_tal_uri (world log uri) uri).1 = 0 → (world log uri).uri_is_certificate = false →
      ∃ error log1, handle_tal_uri world t uri log = outcome.ret (error, log1) ∧ error < 0) ∧
    ((fetch_tal_uri (world log uri) uri).1 = 0 → (world log uri).uri_is_certificate = true →
      (world log uri).db_rrdp_uris_set_all_unvisited = 0 →
      (world log uri).certificate_traverse ≠ 0 →
      (((world log uri).validation_pubkey_state = pubkey_state.PKS_INVALID →
        ∃ log1, handle_tal_uri world t uri log = outcome.ret (0, log1)) ∧
      ((world log uri).validation_pubkey_state = pubkey_state.PKS_VALID ∨
          (world log uri).validation_pubkey_state = pubkey_state.PKS_UNTESTED →
        ∃ error log1, handle_tal_uri world t uri log = outcome.ret (error, log1) ∧
          error < 0))) := by
  refine ⟨?_, ?_, ?_⟩
  · intro hfetch
    exact ⟨log ++ [tal_event.validation_prepare, (fetch_tal_uri (world log uri) uri).2,
      tal_event.validation_destroy], by simp [handle_tal_uri, hprep, hfetch, pr_val_warn]⟩
  · intro hfetch hcer
    exact ⟨ENSURE_NEGATIVE pr_op_err,
      log ++ [tal_event.validation_prepare, (fetch_tal_uri (world log uri) uri).2,
        tal_event.validation_destroy],
      by simp [handle_tal_uri, hprep, hfetch, hcer], by decide⟩
  · intro hfetch hcer hdb hroot
    constructor
    · intro hstate
      exact ⟨log ++ [tal_event.validation_prepare, (fetch_tal_uri (world log uri) uri).2,
        tal_event.db_rrdp_uris_set_all_unvisited, tal_event.certificate_traverse none uri,
        tal_event.validation_destroy],
        by simp [handle_tal_uri, hprep, hfetch, hcer, hdb, hroot, hstate]⟩
    · intro hstate
      refine ⟨ENSURE_NEGATIVE (world log uri).certificate_traverse,
        log ++ [tal_event.validation_prepare, (fetch_tal_uri (world log uri) uri).2,
          tal_event.db_rrdp_uris_set_all_unvisited, tal_event.certificate_traverse none uri,
          tal_event.validation_destroy], ?_, ENSURE_NEGATIVE_neg _ hroot⟩
      rcases hstate with hstate | hstate <;>
        simp [handle_tal_uri, hprep, hfetch, hcer, hdb, hroot, hstate]

/-- A root certificate rejected with code 5 while the key state is `PKS_VALID`: the result is -5. -/
theorem handle_tal_uri_soft_and_hard_errors_witness :
    ((fun (_ : List (tal_event Nat Nat)) (_ : Nat) => root_rejected_env) [] 10).validation_prepare
      = 0 ∧
    handle_tal_uri (fun _ _ => root_rejected_env) sample_tal 10 [] =
      outcome.ret (-5, [tal_event.validation_prepare, tal_event.download_files 10,
        tal_event.db_rrdp_uris_set_all_unvisited, tal_event.certificate_traverse none 10,
        tal_event.validation_destroy]) ∧
    ∃ error log1, handle_tal_uri (fun _ _ => root_rejected_env) sample_tal 10 [] =
      outcome.ret (error, log1) ∧ error < 0 :=
  ⟨by decide, by decide,
    ((handle_tal_uri_soft_and_hard_errors (fun _ _ => root_rejected_env) sample_tal 10 []
      (by decide)).2.2 (by decide) (by decide) (by decide) (by decide)).2 (Or.inl (by decide))⟩

/-- The calls of the loop of `foreach_uri`: all URIs with answer 0, or the URIs up to the first non-zero answer. -/
theorem foreach_uri_from_calls {U σ : Type} (handler : tal U → U → σ → Int × σ) (t : tal U) :
    ∀ (l : List U) (arg : σ) (calls0 : List (U × Int)),
      ∃ error arg1 calls,
        foreach_uri_from (handler_logged handler) t l (arg, calls0) =
          outcome.ret (error, arg1, calls0 ++ calls) ∧
        foreach_uri_from (handler_returns handler) t l arg = outcome.ret (error, arg1) ∧
        ((error = 0 ∧ calls = l.map (fun u => (u, 0))) ∨
          (error ≠ 0 ∧ ∃ pre u post, l = pre ++ u :: post ∧
            calls = pre.map (fun u => (u, 0)) ++ [(u, error)])) := by
  intro l
  induction l with
  | nil =>
    intro arg calls0
    exact ⟨0, arg, [], by simp [foreach_uri_from], rfl, Or.inl ⟨rfl, rfl⟩⟩
  | cons uri rest ih =>
    intro arg calls0
    by_cases he : (handler t uri arg).1 = 0
    · obtain ⟨error, arg1, calls, h1, h2, h3⟩ :=
        ih (handler t uri arg).2 (calls0 ++ [(uri, (handler t uri arg).1)])
      refine ⟨error, arg1, (uri, 0) :: calls, ?_, ?_, ?_⟩
      · simp only [foreach_uri_from, handler_logged, he, ne_eq, not_true_eq_false, if_false]
        simp only [handler_logged, he] at h1
        rw [h1]
        simp
      · simp only [foreach_uri_from, handler_returns, he, ne_eq, not_true_eq_false, if_false]
        simpa only [handler_returns] using h2
      · rcases h3 with ⟨h0, hc⟩ | ⟨hne, pre, u, post, hl, hc⟩
        · exact Or.inl ⟨h0, by simp [hc]⟩
        · exact Or.inr ⟨hne, uri :: pre, u, post, by simp [hl], by simp [hc]⟩
    · refine ⟨(handler t uri arg).1, (handler t uri arg).2, [(uri, (handler t uri arg).1)],
        ?_, ?_, Or.inr ⟨he, [], uri, rest, rfl, rfl⟩⟩
      · simp only [foreach_uri_from, handler_logged, ne_eq, he, not_false_eq_true, if_true]
      · simp only [foreach_uri_from, handler_returns, ne_eq, he, not_false_eq_true, if_true]

/-- Claim C3: for every TAL and every per-URI handler, `foreach_uri` calls the handler on the
URIs in list order, stops at the first URI for which the handler returns a non-zero value (no
later URI is handled) and returns that value, or 0 when every call returned 0.
`do_file_validation` then sets the exit status to 0 if that value is positive, to the value
itself if it is negative, and to a non-zero error if it is 0 (every URI was a soft error, or
the list is empty). `t` is the TAL handed to `foreach_uri`: the loaded one, shuffled when the
configuration asks for it. -/
theorem foreach_uri_stops_at_first_nonzero {U σ ρ : Type}
    (handler : tal U → U → σ → Int × σ) (loaded t : tal U)
    (config_get_shuffle_tal_uris : Bool) (random_at_most : Int → ρ → Int × ρ) (rng : ρ)
    (arg : σ)
    (hshuffle : (if config_get_shuffle_tal_uris then
        (tal_shuffle_uris random_at_most loaded rng).map Prod.fst
      else some loaded) = some t) :
    ∃ error arg1 calls,
      foreach_uri t (handler_logged handler) (arg, []) = outcome.ret (error, arg1, calls) ∧
      foreach_uri t (handler_returns handler) arg = outcome.ret (error, arg1) ∧
      ((error = 0 ∧ calls = t.uris.array.map (fun u => (u, 0))) ∨
        (error ≠ 0 ∧ ∃ pre u post, t.uris.array = pre ++ u :: post ∧
          calls = pre.map (fun u => (u, 0)) ++ [(u, error)])) ∧
      ∃ status,
        do_file_validation (0, loaded) config_get_shuffle_tal_uris random_at_most rng
          (handler_returns handler) arg = outcome.ret (status, arg1) ∧
        (error > 0 → status = 0) ∧ (error < 0 → status = error) ∧
        (error = 0 → status ≠ 0) := by
  obtain ⟨error, arg1, calls, h1, h2, h3⟩ :=
    foreach_uri_from_calls handler t t.uris.array arg []
  refine ⟨error, arg1, calls, by simpa [foreach_uri] using h1, h2, h3, ?_⟩
  have hrun : foreach_uri t (handler_returns handler) arg = outcome.ret (error, arg1) := h2
  rcases lt_trichotomy error 0 with hneg | hzero | hpos
  · refine ⟨error, ?_, fun h => by omega, fun _ => rfl, fun h => by omega⟩
    have h0 : ¬ error > 0 := by omega
    have h00 : ¬ error = 0 := by omega
    simp [do_file_validation, hshuffle, hrun, h0, h00]
  · refine ⟨pr_op_err, ?_, fun h => by omega, fun h => by omega, fun _ => by decide⟩
    simp [do_file_validation, hshuffle, hrun, hzero]
  · refine ⟨0, ?_, fun _ => rfl, fun h => by omega, fun h => by omega⟩
    simp [do_file_validation, hshuffle, hrun, hpos]

/-- Five URIs and a handler that answers 1 on the third: three calls, exit status 0. -/
theorem foreach_uri_stops_at_first_nonzero_witness :
    (if false then (tal_shuffle_uris lcg sample_tal 7).map Prod.fst else some sample_tal) =
      some sample_tal ∧
    foreach_uri sample_tal (handler_logged sample_handler) (0, []) =
      outcome.ret (1, 3, [(10, 0), (20, 0), (30, 1)]) ∧
    do_file_validation (0, sample_tal) false lcg 7 (handler_returns sample_handler) 0 =
      outcome.ret (0, 3) ∧
    ∃ error arg1 calls,
      foreach_uri sample_tal (handler_logged sample_handler) (0, []) =
        outcome.ret (error, arg1, calls) ∧
      foreach_uri sample_tal (handler_returns sample_handler) 0 = outcome.ret (error, arg1) ∧
      ((error = 0 ∧ calls = sample_tal.uris.array.map (fun u => (u, 0))) ∨
        (error ≠ 0 ∧ ∃ pre u post, sample_tal.uris.array = pre ++ u :: post ∧
          calls = pre.map (fun u => (u, 0)) ++ [(u, error)])) ∧
      ∃ status,
        do_file_validation (0, sample_tal) false lcg 7 (handler_returns sample_handler) 0 =
          outcome.ret (status, arg1) ∧
        (error > 0 → status = 0) ∧ (error < 0 → status = error) ∧
        (error = 0 → status ≠ 0) :=
  ⟨by decide, by decide, by decide,
    foreach_uri_stops_at_first_nonzero sample_handler sample_tal sample_tal false lcg 7 0
      (by decide)⟩

/-! ## The walk of `handle_tal_uri`: root certificate, then the deferred certificates -/

/-- The drain loop on a stack whose pops all succeed. -/
theorem handle_tal_uri_drain_all {U R : Type} :
    ∀ (deferred : List (deferred_cert U R × Int)) (log : List (tal_event U R)),
      handle_tal_uri_drain
          (deferred.map (fun d => deferstack_pop_result.mk 0 d.1 d.2)) log =
        outcome.ret (1, log ++ drain_events deferred ++
          [tal_event.deferstack_pop (-ENOENT), tal_event.validation_destroy]) := by
  intro deferred
  induction deferred with
  | nil =>
    intro log
    simp [handle_tal_uri_drain, drain_events]
  | cons d rest ih =>
    intro log
    have hne : ¬ ((0 : Int) = -ENOENT) := by decide
    simp only [List.map_cons, handle_tal_uri_drain, hne, if_false, ne_eq, not_true_eq_false,
      ih, drain_events]
    simp

/-- Whenever the drain loop returns, it returns 1 after the pop that reported the empty stack. -/
theorem handle_tal_uri_drain_ret {U R : Type} :
    ∀ (stack : List (deferstack_pop_result U R)) (log log1 : List (tal_event U R))
      (error : Int), handle_tal_uri_drain stack log = outcome.ret (error, log1) →
      error = 1 ∧ ∃ mid, log1 = log ++ mid ++
        [tal_event.deferstack_pop (-ENOENT), tal_event.validation_destroy] := by
  intro stack
  induction stack with
  | nil =>
    intro log log1 error h
    simp only [handle_tal_uri_drain, outcome.ret.injEq, Prod.mk.injEq] at h
    exact ⟨h.1.symm, [], by simp [← h.2]⟩
  | cons pop stack ih =>
    intro log log1 error h
    by_cases hempty : pop.error = -ENOENT
    · simp only [handle_tal_uri_drain, hempty, if_true, outcome.ret.injEq,
        Prod.mk.injEq] at h
      exact ⟨h.1.symm, [], by simp [← h.2]⟩
    · by_cases hzero : pop.error = 0
      · simp only [handle_tal_uri_drain, hempty, if_false, hzero, ne_eq, not_true_eq_false]
          at h
        obtain ⟨h1, mid, hmid⟩ := ih _ _ _ h
        exact ⟨h1, [tal_event.deferstack_pop 0,
          tal_event.certificate_traverse (some pop.deferred.pp) pop.deferred.uri,
          tal_event.uri_refput pop.deferred.uri, tal_event.rpp_refput pop.deferred.pp] ++ mid,
          by simp [hmid]⟩
      · simp [handle_tal_uri_drain, hempty, hzero] at h

/-- Where the return-code discipline of `handle_tal_uri` does hold: when `db_rrdp_uris_set_all_unvisited` returns
no positive code, `handle_tal_uri` returns a value above 0 only after a completed walk: the
value is 1, the root `certificate_traverse` returned 0, and the last calls are the
`deferstack_pop` that reports the empty stack and `validation_destroy`. -/
theorem handle_tal_uri_positive_after_walk {U R : Type}
    (world : List (tal_event U R) → U → tal_uri_env U R) (t : tal U) (uri : U)
    (log log1 : List (tal_event U R)) (error : Int)
    (hdb : (world log uri).db_rrdp_uris_set_all_unvisited ≤ 0)
    (h : handle_tal_uri world t uri log = outcome.ret (error, log1)) (hpos : 0 < error) :
    error = 1 ∧ (world log uri).certificate_traverse = 0 ∧
      ∃ mid, log1 = log ++ [tal_event.validation_prepare,
          (fetch_tal_uri (world log uri) uri).2, tal_event.db_rrdp_uris_set_all_unvisited,
          tal_event.certificate_traverse none uri] ++ mid ++
        [tal_event.deferstack_pop (-ENOENT), tal_event.validation_destroy] := by
  unfold handle_tal_uri at h
  simp only at h
  split at h
  · simp only [outcome.ret.injEq, Prod.mk.injEq] at h
    have := ENSURE_NEGATIVE_nonpos (world log uri).validation_prepare
    omega
  · split at h
    · simp only [outcome.ret.injEq, Prod.mk.injEq, pr_val_warn] at h
      omega
    · split at h
      · simp only [outcome.ret.injEq, Prod.mk.injEq] at h
        have := ENSURE_NEGATIVE_nonpos pr_op_err
        omega
      · split at h
        · simp only [outcome.ret.injEq, Prod.mk.injEq] at h
          omega
        · split at h
          · split at h
            · simp only [outcome.ret.injEq, Prod.mk.injEq] at h
              omega
            · simp only [outcome.ret.injEq, Prod.mk.injEq] at h
              have := ENSURE_NEGATIVE_nonpos (world log uri).certificate_traverse
              omega
            · simp only [outcome.ret.injEq, Prod.mk.injEq] at h
              have := ENSURE_NEGATIVE_nonpos (world log uri).certificate_traverse
              omega
          · rename_i hroot
            split at h
            · simp at h
            · obtain ⟨h1, mid, hmid⟩ := handle_tal_uri_drain_ret _ _ _ _ h
              exact ⟨h1, by simpa using hroot, mid, hmid⟩

/-- Claim C4 fails on the code: when `db_rrdp_uris_set_all_unvisited` fails with the positive
code 12, `handle_tal_uri` leaves through `end` without `ENSURE_NEGATIVE` and returns 12, a value
above 0, although no certificate was traversed and the stack was never popped.
`do_file_validation` then reports the exit status 0 for a TAL none of whose URIs was walked. -/
theorem handle_tal_uri_positive_without_walk :
    handle_tal_uri (fun _ _ => rrdp_reset_fails_env) sample_tal 10 [] =
      outcome.ret (12, [tal_event.validation_prepare, tal_event.download_files 10,
        tal_event.db_rrdp_uris_set_all_unvisited, tal_event.validation_destroy]) ∧
    do_file_validation (0, sample_tal) false lcg 7
        (handle_tal_uri (fun _ _ => rrdp_reset_fails_env)) [] =
      outcome.ret (0, [tal_event.validation_prepare, tal_event.download_files 10,
        tal_event.db_rrdp_uris_set_all_unvisited, tal_event.validation_destroy]) := by
  decide

/-- Claim C10: after the root certificate validated, whatever `certificate_traverse` returns
for the deferred certificates, the drain loop of `handle_tal_uri` pops every entry until
`deferstack_pop` reports the empty stack (`-ENOENT`) and then returns 1. For each popped pair
it calls `certificate_traverse` once, then `uri_refput` on the URI once and `rpp_refput` on the
RPP once, whether that traversal succeeded or failed. -/
theorem handle_tal_uri_drains_whole_stack {U R : Type}
    (world : List (tal_event U R) → U → tal_uri_env U R) (t : tal U) (uri : U)
    (log : List (tal_event U R)) (deferred : List (deferred_cert U R × Int))
    (hprep : (world log uri).validation_prepare = 0)
    (hfetch : (fetch_tal_uri (world log uri) uri).1 = 0)
    (hcer : (world log uri).uri_is_certificate = true)
    (hdb : (world log uri).db_rrdp_uris_set_all_unvisited = 0)
    (hroot : (world log uri).certificate_traverse = 0)
    (hstack : (world log uri).validation_certstack = true)
    (hpops : (world log uri).deferstack_pop =
      deferred.map (fun d => deferstack_pop_result.mk 0 d.1 d.2)) :
    handle_tal_uri world t uri log =
      outcome.ret (1, log ++ [tal_event.validation_prepare,
          (fetch_tal_uri (world log uri) uri).2, tal_event.db_rrdp_uris_set_all_unvisited,
          tal_event.certificate_traverse none uri] ++ drain_events deferred ++
        [tal_event.deferstack_pop (-ENOENT), tal_event.validation_destroy]) := by
  simp only [handle_tal_uri, hprep, hfetch, hcer, hdb, hroot, hstack, hpops, ne_eq,
    not_true_eq_false, if_false, Bool.not_true, Bool.false_eq_true]
  exact handle_tal_uri_drain_all deferred _

/-- A walk with two deferred certificates, the first of which fails: both are traversed and released, the result is 1. -/
theorem handle_tal_uri_drains_whole_stack_witness :
    handle_tal_uri (fun _ _ => walk_env) sample_tal 10 [] =
      outcome.ret (1, [tal_event.validation_prepare, tal_event.download_files 10,
        tal_event.db_rrdp_uris_set_all_unvisited, tal_event.certificate_traverse none 10,
        tal_event.deferstack_pop 0, tal_event.certificate_traverse (some 7) 70,
        tal_event.uri_refput 70, tal_event.rpp_refput 7,
        tal_event.deferstack_pop 0, tal_event.certificate_traverse (some 8) 80,
        tal_event.uri_refput 80, tal_event.rpp_refput 8,
        tal_event.deferstack_pop (-2), tal_event.validation_destroy]) :=
  handle_tal_uri_drains_whole_stack (fun _ _ => walk_env) sample_tal 10 []
    [(deferred_cert.mk 7 70, -22), (deferred_cert.mk 8 80, 0)]
    (by decide) (by decide) (by decide) (by decide) (by decide) (by decide) (by decide)

/-! ## What `base64_sanitize` keeps and how much it writes -/

/-- One pass writes the bytes of its chunk that are no line feed, unchanged and in order. -/
theorem base64_sanitize_chunk_without_line_feeds (buf : List Char) :
    without_line_feeds (base64_sanitize_chunk buf) = without_line_feeds buf := by
  have hLF : (LF != LF) = false := by decide
  unfold base64_sanitize_chunk without_line_feeds
  simp only
  split
  · rw [List.filter_append, List.filter_append]
    conv_rhs => rw [← List.take_append_drop (buf.length - 1) buf, List.filter_append]
    simp [hLF]
  · rename_i eol _
    split
    · rw [List.filter_append, ← List.filter_append, List.take_append_drop]
      simp [hLF]
    · rw [List.take_of_length_le (by omega)]

/-- One pass writes its chunk with, at most, a line feed inserted. -/
theorem base64_sanitize_chunk_sublist (buf : List Char) :
    buf.Sublist (base64_sanitize_chunk buf) := by
  unfold base64_sanitize_chunk
  simp only
  split
  · conv_lhs => rw [← List.take_append_drop (buf.length - 1) buf]
    exact ((List.sublist_append_left _ _).append (List.Sublist.refl _))
  · rename_i eol _
    split
    · rw [List.take_append_drop]
      exact List.sublist_append_left _ _
    · rw [List.take_of_length_le (by omega)]

/-- One pass writes at most one byte more than it read. -/
theorem base64_sanitize_chunk_length (buf : List Char) :
    (base64_sanitize_chunk buf).length ≤ buf.length + 1 := by
  unfold base64_sanitize_chunk
  simp only
  split
  · simp only [List.length_append, List.length_take, List.length_drop, List.length_singleton]
    omega
  · rename_i eol _
    split
    · simp only [List.length_append, List.length_take, List.length_drop, List.length_singleton]
      omega
    · simp only [List.length_take]
      omega

/-- A pass of the read loop after which `ferror` reports an error: the loop stops with that
code and writes nothing more. -/
theorem base64_sanitize_loop_abort (ferror : Nat → Int) (original_size : Nat)
    (fd result : List Char) (hread : (fd.take (fread_size original_size)).length > 0)
    (herr : ferror original_size ≠ 0) :
    base64_sanitize_loop ferror original_size fd result = (ferror original_size, result) := by
  rw [base64_sanitize_loop, if_pos hread, if_pos herr]

/-- The list of chunks, unfolded once. -/
theorem base64_sanitize_chunks_unfold (ferror : Nat → Int) (original_size : Nat)
    (fd : List Char) :
    base64_sanitize_chunks ferror original_size fd =
      if (fd.take (fread_size original_size)).length > 0 then
        if ferror original_size ≠ 0 then []
        else
          fd.take (fread_size original_size) ::
            base64_sanitize_chunks ferror
              (original_size - (fd.take (fread_size original_size)).length)
              (fd.drop (fread_size original_size))
      else [] := by
  rw [base64_sanitize_chunks]

/-- With `n` bytes left in the file, `fread` returns as many bytes as it is asked for: 65, or
all `n` when fewer are left; none only when `n = 0`. -/
theorem fread_full (fd : List Char) :
    (fd.take (fread_size fd.length)).length = fread_size fd.length ∧
    fread_size fd.length ≤ fd.length ∧ fread_size fd.length ≤ BUF_SIZE ∧
    (0 < fd.length → 0 < fread_size fd.length) ∧
    (fd.drop (fread_size fd.length)).length = fd.length - fread_size fd.length := by
  have h : fread_size fd.length ≤ fd.length ∧ fread_size fd.length ≤ BUF_SIZE ∧
      (0 < fd.length → 0 < fread_size fd.length) := by
    unfold fread_size BUF_SIZE
    split <;> omega
  refine ⟨?_, h.1, h.2.1, h.2.2, ?_⟩
  · rw [List.length_take]
    omega
  · rw [List.length_drop]

/-- The bytes the read loop has written are the bytes it started with followed by what each
chunk read contributes, in order: every write goes to the end of `result`. -/
theorem base64_sanitize_loop_written (ferror : Nat → Int) :
    ∀ (n original_size : Nat) (fd result : List Char), original_size = n →
      (base64_sanitize_loop ferror original_size fd result).2 =
        result ++ sanitized_chunks (base64_sanitize_chunks ferror original_size fd) := by
  intro n
  induction n using Nat.strong_induction_on with
  | _ n ih =>
    intro original_size fd result hn
    subst hn
    rw [base64_sanitize_chunks_unfold]
    by_cases hread : (fd.take (fread_size original_size)).length > 0
    · by_cases herr : ferror original_size = 0
      · have hle : (fd.take (fread_size original_size)).length ≤ original_size := by
          have h1 : (fd.take (fread_size original_size)).length ≤ fread_size original_size :=
            List.length_take_le _ _
          have h2 : fread_size original_size ≤ original_size := by
            unfold fread_size
            split <;> omega
          omega
        rw [base64_sanitize_loop_step ferror original_size fd result hread herr, if_pos hread,
          if_neg (by simp [herr])]
        rw [ih (original_size - (fd.take (fread_size original_size)).length) (by omega) _ _ _
          rfl]
        simp [sanitized_chunks]
      · rw [base64_sanitize_loop_abort ferror original_size fd result hread herr, if_pos hread,
          if_pos herr]
        simp [sanitized_chunks]
    · rw [base64_sanitize_loop_done ferror original_size fd result (by omega), if_neg hread]
      simp [sanitized_chunks]

/-- When the read loop ends with code 0, the chunks it read are the whole file, in order. -/
theorem base64_sanitize_chunks_whole_file (ferror : Nat → Int) :
    ∀ (n : Nat) (fd result : List Char), fd.length = n →
      (base64_sanitize_loop ferror fd.length fd result).1 = 0 →
      (base64_sanitize_chunks ferror fd.length fd).flatten = fd := by
  intro n
  induction n using Nat.strong_induction_on with
  | _ n ih =>
    intro fd result hn hcode
    obtain ⟨hlen, hle, _, hpos, hdrop⟩ := fread_full fd
    rw [base64_sanitize_chunks_unfold]
    by_cases hread : (fd.take (fread_size fd.length)).length > 0
    · by_cases herr : ferror fd.length = 0
      · rw [if_pos hread, if_neg (by simp [herr])]
        rw [base64_sanitize_loop_step ferror fd.length fd result hread herr] at hcode
        have hsize : fd.length - (fd.take (fread_size fd.length)).length =
            (fd.drop (fread_size fd.length)).length := by omega
        rw [hsize] at hcode ⊢
        rw [List.flatten_cons, ih (fd.drop (fread_size fd.length)).length (by omega) _ _ rfl
          hcode]
        exact List.take_append_drop _ _
      · rw [base64_sanitize_loop_abort ferror fd.length fd result hread herr] at hcode
        exact absurd hcode herr
    · rw [if_neg hread]
      have h0 : fd.length = 0 := by
        by_contra hne
        have := hpos (by omega)
        omega
      simp [List.length_eq_zero.1 h0]

/-- Without read errors the loop ends with code 0, after one pass per chunk: it reads
`ceil(n / 65)` chunks, each of at least 1 and at most 65 bytes. -/
theorem base64_sanitize_chunks_count :
    ∀ (n : Nat) (fd result : List Char), fd.length = n →
      (base64_sanitize_loop no_ferror fd.length fd result).1 = 0 ∧
      (base64_sanitize_chunks no_ferror fd.length fd).length = (n + 64) / 65 ∧
      ∀ buf ∈ base64_sanitize_chunks no_ferror fd.length fd,
        0 < buf.length ∧ buf.length ≤ BUF_SIZE := by
  intro n
  induction n using Nat.strong_induction_on with
  | _ n ih =>
    intro fd result hn
    obtain ⟨hlen, hle, hbuf, hpos, hdrop⟩ := fread_full fd
    rw [base64_sanitize_chunks_unfold]
    by_cases hread : (fd.take (fread_size fd.length)).length > 0
    · have herr : no_ferror fd.length = 0 := rfl
      rw [if_pos hread, if_neg (by simp [herr]),
        base64_sanitize_loop_step no_ferror fd.length fd result hread herr]
      have hsize : fd.length - (fd.take (fread_size fd.length)).length =
          (fd.drop (fread_size fd.length)).length := by omega
      rw [hsize]
      obtain ⟨h1, h2, h3⟩ := ih (fd.drop (fread_size fd.length)).length (by omega)
        (fd.drop (fread_size fd.length))
        (result ++ base64_sanitize_chunk (fd.take (fread_size fd.length))) rfl
      refine ⟨h1, ?_, ?_⟩
      · rw [List.length_cons, h2, hdrop]
        have hk : fread_size fd.length = if fd.length > 65 then 65 else fd.length := rfl
        split at hk <;> omega
      · intro buf hmem
        rcases List.mem_cons.1 hmem with rfl | hm
        · exact ⟨hread, by omega⟩
        · exact h3 buf hm
    · rw [if_neg hread, base64_sanitize_loop_done no_ferror fd.length fd result (by omega)]
      have h0 : fd.length = 0 := by
        by_contra hne
        have := hpos (by omega)
        omega
      refine ⟨rfl, ?_, by simp⟩
      simp only [List.length_nil]
      omega

/-- The bytes written for the chunks of a file of `n` bytes are at most `n` plus one per
chunk, whether or not a read error cuts the loop short. -/
theorem base64_sanitize_written_length (ferror : Nat → Int) :
    ∀ (n : Nat) (fd : List Char), fd.length = n →
      (sanitized_chunks (base64_sanitize_chunks ferror fd.length fd)).length ≤
        n + (n + 64) / 65 := by
  intro n
  induction n using Nat.strong_induction_on with
  | _ n ih =>
    intro fd hn
    obtain ⟨hlen, hle, hbuf, hpos, hdrop⟩ := fread_full fd
    rw [base64_sanitize_chunks_unfold]
    by_cases hread : (fd.take (fread_size fd.length)).length > 0
    · by_cases herr : ferror fd.length = 0
      · rw [if_pos hread, if_neg (by simp [herr])]
        have hsize : fd.length - (fd.take (fread_size fd.length)).length =
            (fd.drop (fread_size fd.length)).length := by omega
        rw [hsize]
        have hrest := ih (fd.drop (fread_size fd.length)).length (by omega)
          (fd.drop (fread_size fd.length)) rfl
        have hchunk := base64_sanitize_chunk_length (fd.take (fread_size fd.length))
        simp only [sanitized_chunks, List.length_append]
        have hk : fread_size fd.length = if fd.length > 65 then 65 else fd.length := rfl
        split at hk <;> omega
      · rw [if_pos hread, if_pos herr]
        simp [sanitized_chunks]
    · rw [if_neg hread]
      simp [sanitized_chunks]

/-- Writing out a list of chunks keeps every byte that is no line feed, once and in order. -/
theorem sanitized_chunks_without_line_feeds :
    ∀ (chunks : List (List Char)),
      without_line_feeds (sanitized_chunks chunks) = without_line_feeds chunks.flatten ∧
      chunks.flatten.Sublist (sanitized_chunks chunks) := by
  intro chunks
  induction chunks with
  | nil => exact ⟨rfl, List.Sublist.refl _⟩
  | cons buf rest ih =>
    have h1 := base64_sanitize_chunk_without_line_feeds buf
    have h2 := base64_sanitize_chunk_sublist buf
    unfold without_line_feeds at h1 ih ⊢
    refine ⟨?_, ?_⟩
    · simp only [sanitized_chunks, List.flatten_cons, List.filter_append, h1, ih.1]
    · simp only [sanitized_chunks, List.flatten_cons]
      exact h2.append ih.2

/-- The run of `base64_sanitize` on the sample body: one chunk of 11 bytes, written out with one
line feed added at the end. -/
theorem base64_sanitize_sample :
    base64_sanitize no_alloc_failure no_ferror sample_body =
      (0, some ['A', 'B', 'C', LF, 'D', 'E', 'F', LF, LF, 'G', 'H', LF]) := by
  have h1 : base64_sanitize_loop no_ferror 11 sample_body [] =
      base64_sanitize_loop no_ferror 0 []
        ['A', 'B', 'C', LF, 'D', 'E', 'F', LF, LF, 'G', 'H', LF] :=
    base64_sanitize_loop_unroll no_ferror 11 _ _ sample_body _ _ _
      (by decide) (by decide) rfl (by decide) (by decide) (by decide)
  have h2 := base64_sanitize_loop_done no_ferror 0 []
    ['A', 'B', 'C', LF, 'D', 'E', 'F', LF, LF, 'G', 'H', LF] (by decide)
  have hlen : sample_body.length = 11 := by decide
  unfold base64_sanitize
  simp only [hlen, h1, h2]
  decide

/-- The bytes `base64_sanitize` writes before the terminating NUL, for full reads. With an
allocator that never fails and no read error it returns 0 and these bytes. Whenever it hands
them back, the code is 0, they equal the input once all line feeds are removed on both sides, and
the input can be read off them by skipping characters. -/
theorem base64_sanitize_written_keeps_bytes (malloc : Nat → Bool) (ferror : Nat → Int)
    (fd : List Char) :
    (∃ out, base64_sanitize no_alloc_failure no_ferror fd = (0, some out)) ∧
    ∀ error out, base64_sanitize malloc ferror fd = (error, some out) →
      error = 0 ∧ without_line_feeds out = without_line_feeds fd ∧ fd.Sublist out := by
  constructor
  · have hcode := (base64_sanitize_chunks_count fd.length fd [] rfl).1
    refine ⟨(base64_sanitize_loop no_ferror fd.length fd []).2, ?_⟩
    simp [base64_sanitize, no_alloc_failure, hcode]
  · intro error out h
    unfold base64_sanitize at h
    simp only at h
    split at h
    · simp at h
    · split at h
      · simp at h
      · split at h
        · simp at h
        · rename_i hcode
          split at h
          · simp at h
          · simp only [Prod.mk.injEq, Option.some.injEq] at h
            obtain ⟨herror, hout⟩ := h
            have hcode0 : (base64_sanitize_loop ferror fd.length fd []).1 = 0 := by
              simpa using hcode
            have hwritten := base64_sanitize_loop_written ferror fd.length fd.length fd [] rfl
            have hwhole := base64_sanitize_chunks_whole_file ferror fd.length fd [] rfl hcode0
            have hkeep := sanitized_chunks_without_line_feeds
              (base64_sanitize_chunks ferror fd.length fd)
            rw [hwhole] at hkeep
            rw [List.nil_append] at hwritten
            rw [← hout, hwritten]
            exact ⟨herror.symm, hkeep.1, hkeep.2⟩

/-- Claim C12: for every input of `n` bytes read in full chunks of at most 65 bytes, the bytes
the read loop of `base64_sanitize` writes (each at the end of what is written so far, so a write
index is below the number of bytes written) number at most `n + n / 65 + 1`, the size of the
allocation of `result`; this holds whether or not a read error cuts the loop short. Without
read errors the loop ends with code 0 after `ceil(n / 65)` passes, one per chunk; the chunks
are the file in order, each of 1 to 65 bytes; and `base64_sanitize` hands back an output of at
most `n + n / 65 + 1` bytes. -/
theorem base64_sanitize_stays_in_allocation (ferror : Nat → Int) (fd : List Char) :
    (∀ result, (base64_sanitize_loop ferror fd.length fd result).2 =
      result ++ sanitized_chunks (base64_sanitize_chunks ferror fd.length fd)) ∧
    (base64_sanitize_loop ferror fd.length fd []).2.length ≤
      fd.length + fd.length / BUF_SIZE + 1 ∧
    (base64_sanitize_loop no_ferror fd.length fd []).1 = 0 ∧
    (base64_sanitize_chunks no_ferror fd.length fd).length =
      (fd.length + (BUF_SIZE - 1)) / BUF_SIZE ∧
    (base64_sanitize_chunks no_ferror fd.length fd).flatten = fd ∧
    (∀ buf ∈ base64_sanitize_chunks no_ferror fd.length fd,
      0 < buf.length ∧ buf.length ≤ BUF_SIZE) ∧
    ∃ out, base64_sanitize no_alloc_failure no_ferror fd = (0, some out) ∧
      out.length ≤ fd.length + fd.length / BUF_SIZE + 1 := by
  have hwritten : ∀ f : Nat → Int, (base64_sanitize_loop f fd.length fd []).2 =
      sanitized_chunks (base64_sanitize_chunks f fd.length fd) := by
    intro f
    have h := base64_sanitize_loop_written f fd.length fd.length fd [] rfl
    rwa [List.nil_append] at h
  have hbound : ∀ f : Nat → Int, (base64_sanitize_loop f fd.length fd []).2.length ≤
      fd.length + fd.length / BUF_SIZE + 1 := by
    intro f
    rw [hwritten f]
    have h := base64_sanitize_written_length f fd.length fd rfl
    have h65 : BUF_SIZE = 65 := rfl
    rw [h65]
    omega
  obtain ⟨hcode, hcount, hsizes⟩ := base64_sanitize_chunks_count fd.length fd [] rfl
  refine ⟨fun result => base64_sanitize_loop_written ferror fd.length fd.length fd result rfl,
    hbound ferror, hcode, hcount,
    base64_sanitize_chunks_whole_file no_ferror fd.length fd [] rfl hcode, hsizes,
    (base64_sanitize_loop no_ferror fd.length fd []).2, ?_, hbound no_ferror⟩
  simp [base64_sanitize, no_alloc_failure, hcode]

/-- The sample body of 11 bytes: one pass, 12 bytes written, which is `11 + 11 / 65 + 1`. -/
theorem base64_sanitize_stays_in_allocation_witness :
    base64_sanitize no_alloc_failure no_ferror sample_body =
      (0, some ['A', 'B', 'C', LF, 'D', 'E', 'F', LF, LF, 'G', 'H', LF]) ∧
    (base64_sanitize_loop no_ferror sample_body.length sample_body []).2.length ≤
      sample_body.length + sample_body.length / BUF_SIZE + 1 ∧
    (base64_sanitize_chunks no_ferror sample_body.length sample_body).length =
      (sample_body.length + (BUF_SIZE - 1)) / BUF_SIZE :=
  ⟨base64_sanitize_sample,
    (base64_sanitize_stays_in_allocation no_ferror sample_body).2.1,
    (base64_sanitize_stays_in_allocation no_ferror sample_body).2.2.2.1⟩

/-! ## The string `base64_sanitize` hands to the decoder -/

/-- One pass of the general read loop when `fread` returned bytes and `ferror` is clear. -/
theorem base64_sanitize_read_loop_step (fread : Nat → List Char → Nat) (ferror : Nat → Int)
    (original_size : Nat) (fd result : List Char)
    (hread : fread_result fread (fread_size original_size) fd > 0)
    (herr : ferror original_size = 0) :
    base64_sanitize_read_loop fread ferror original_size fd result =
      base64_sanitize_read_loop fread ferror
        (original_size - fread_result fread (fread_size original_size) fd)
        (fd.drop (fread_result fread (fread_size original_size) fd))
        (result ++ base64_sanitize_chunk
          (fd.take (fread_result fread (fread_size original_size) fd))) := by
  rw [base64_sanitize_read_loop, if_pos hread, if_neg (by simp [herr])]

/-- The general read loop ends with code 0 as soon as `fread` returns nothing, whether or not
the end of the file was reached: `ferror` is not asked. -/
theorem base64_sanitize_read_loop_done (fread : Nat → List Char → Nat) (ferror : Nat → Int)
    (original_size : Nat) (fd result : List Char)
    (hread : fread_result fread (fread_size original_size) fd = 0) :
    base64_sanitize_read_loop fread ferror original_size fd result = (0, result) := by
  rw [base64_sanitize_read_loop, if_neg (by omega)]

/-- A pass of the general read loop after which `ferror` reports an error. -/
theorem base64_sanitize_read_loop_abort (fread : Nat → List Char → Nat) (ferror : Nat → Int)
    (original_size : Nat) (fd result : List Char)
    (hread : fread_result fread (fread_size original_size) fd > 0)
    (herr : ferror original_size ≠ 0) :
    base64_sanitize_read_loop fread ferror original_size fd result =
      (ferror original_size, result) := by
  rw [base64_sanitize_read_loop, if_pos hread, if_pos herr]

/-- A read that returns every byte asked for returns the chunk the loop for full reads takes. -/
theorem fread_result_full (fread : Nat → List Char → Nat)
    (hfull : ∀ asked left, min asked left.length ≤ fread asked left)
    (asked : Nat) (fd : List Char) :
    fread_result fread asked fd = (fd.take asked).length ∧
    fd.take (fread_result fread asked fd) = fd.take asked ∧
    fd.drop (fread_result fread asked fd) = fd.drop asked := by
  have h := hfull asked fd
  have hres : fread_result fread asked fd = min asked fd.length := by
    unfold fread_result
    omega
  rw [hres, List.length_take]
  refine ⟨rfl, ?_, ?_⟩
  · by_cases hle : asked ≤ fd.length
    · rw [Nat.min_eq_left hle]
    · rw [Nat.min_eq_right (by omega), List.take_of_length_le (Nat.le_refl _),
        List.take_of_length_le (by omega)]
  · by_cases hle : asked ≤ fd.length
    · rw [Nat.min_eq_left hle]
    · rw [Nat.min_eq_right (by omega), List.drop_of_length_le (Nat.le_refl _),
        List.drop_of_length_le (by omega)]

/-- When every read returns the bytes asked for, the general read loop is the loop for full
reads. -/
theorem base64_sanitize_read_loop_full (fread : Nat → List Char → Nat) (ferror : Nat → Int)
    (hfull : ∀ asked left, min asked left.length ≤ fread asked left) :
    ∀ (n original_size : Nat) (fd result : List Char), original_size = n →
      base64_sanitize_read_loop fread ferror original_size fd result =
        base64_sanitize_loop ferror original_size fd result := by
  intro n
  induction n using Nat.strong_induction_on with
  | _ n ih =>
    intro original_size fd result hn
    subst hn
    obtain ⟨hlen, htake, hdrop⟩ := fread_result_full fread hfull (fread_size original_size) fd
    have hle : fread_size original_size ≤ original_size := by
      unfold fread_size
      split <;> omega
    have hle2 : (fd.take (fread_size original_size)).length ≤ fread_size original_size :=
      List.length_take_le _ _
    by_cases hread : fread_result fread (fread_size original_size) fd > 0
    · have hread2 : (fd.take (fread_size original_size)).length > 0 := by omega
      by_cases herr : ferror original_size = 0
      · rw [base64_sanitize_read_loop_step fread ferror original_size fd result hread herr,
          base64_sanitize_loop_step ferror original_size fd result hread2 herr,
          htake, hdrop, hlen]
        exact ih _ (by omega) _ _ _ rfl
      · rw [base64_sanitize_read_loop_abort fread ferror original_size fd result hread herr,
          base64_sanitize_loop_abort ferror original_size fd result hread2 herr]
    · rw [base64_sanitize_read_loop_done fread ferror original_size fd result (by omega),
        base64_sanitize_loop_done ferror original_size fd result (by omega)]

/-- When every read returns the bytes asked for, `*out` is the bytes written by the loop for
full reads, closed by a NUL. -/
theorem base64_sanitize_out_full (malloc : Nat → Bool) (fread : Nat → List Char → Nat)
    (ferror : Nat → Int) (hfull : ∀ asked left, min asked left.length ≤ fread asked left)
    (fd : List Char) :
    base64_sanitize_out malloc fread ferror fd =
      ((base64_sanitize malloc ferror fd).1,
        (base64_sanitize malloc ferror fd).2.map (fun out => out ++ [NUL])) := by
  unfold base64_sanitize_out base64_sanitize
  simp only [base64_sanitize_read_loop_full fread ferror hfull fd.length fd.length fd [] rfl]
  split
  · rfl
  · split
    · rfl
    · split
      · rfl
      · split <;> rfl

/-- A buffer without NUL closed by a NUL holds exactly its bytes as a string. -/
theorem c_string_terminated :
    ∀ (out : List Char), NUL ∉ out → c_string (out ++ [NUL]) = out := by
  intro out
  induction out with
  | nil =>
    intro _
    decide
  | cons c out ih =>
    intro h
    have hc : c ≠ NUL := fun hc => h (hc ▸ List.mem_cons_self _ _)
    have hrest : NUL ∉ out := fun hm => h (List.mem_cons_of_mem _ hm)
    have ih2 := ih hrest
    unfold c_string at ih2 ⊢
    simp only [List.cons_append, List.takeWhile_cons, bne_iff_ne, ne_eq, hc, not_false_eq_true,
      if_true, ih2]

/-- A text without line feeds holds a NUL only if the text did. -/
theorem nul_mem_without_line_feeds (text : List Char) :
    NUL ∈ text ↔ NUL ∈ without_line_feeds text := by
  have hne : (NUL != LF) = true := by decide
  unfold without_line_feeds
  rw [List.mem_filter]
  exact ⟨fun h => ⟨h, hne⟩, fun h => h.1⟩

/-- The run of the loop for full reads on the body with a NUL: one chunk of 5 bytes without
line feed, written as 4 bytes, a line feed and the last byte. -/
theorem base64_sanitize_body_with_nul :
    base64_sanitize no_alloc_failure no_ferror body_with_nul =
      (0, some ['A', 'B', NUL, 'C', LF, 'D']) := by
  have h1 : base64_sanitize_loop no_ferror 5 body_with_nul [] =
      base64_sanitize_loop no_ferror 0 [] ['A', 'B', NUL, 'C', LF, 'D'] :=
    base64_sanitize_loop_unroll no_ferror 5 _ _ body_with_nul _ _ _
      (by decide) (by decide) rfl (by decide) (by decide) (by decide)
  have h2 := base64_sanitize_loop_done no_ferror 0 [] ['A', 'B', NUL, 'C', LF, 'D'] (by decide)
  have hlen : body_with_nul.length = 5 := by decide
  unfold base64_sanitize
  simp only [hlen, h1, h2]
  decide

/-- Every read of `full_fread` returns the bytes asked for. -/
theorem full_fread_full : ∀ (asked : Nat) (left : List Char),
    min asked left.length ≤ full_fread asked left := by
  intro asked left
  unfold full_fread
  omega

/-- Counterexample to claim C11. For the input `A B NUL C D`, read in full, `base64_sanitize`
returns 0 and the buffer `A B NUL C LF D NUL`; the string this `char *` holds, the one handed
to the decoder, is `AB`, so the bytes `NUL C D` of the input are lost. For the input `A B` on a
stream whose first `fread` returns nothing, the loop ends without asking `ferror` and
`base64_sanitize` returns 0 with the empty string. -/
theorem base64_sanitize_out_drops_bytes :
    base64_sanitize_out no_alloc_failure full_fread no_ferror body_with_nul =
      (0, some ['A', 'B', NUL, 'C', LF, 'D', NUL]) ∧
    c_string ['A', 'B', NUL, 'C', LF, 'D', NUL] = ['A', 'B'] ∧
    without_line_feeds ['A', 'B'] ≠ without_line_feeds body_with_nul ∧
    base64_sanitize_out no_alloc_failure failed_fread no_ferror ['A', 'B'] =
      (0, some [NUL]) ∧
    c_string [NUL] = [] ∧
    without_line_feeds [] ≠ without_line_feeds ['A', 'B'] := by
  refine ⟨?_, by decide, by decide, ?_, by decide, by decide⟩
  · rw [base64_sanitize_out_full no_alloc_failure full_fread no_ferror full_fread_full,
      base64_sanitize_body_with_nul]
    rfl
  · have hdone := base64_sanitize_read_loop_done failed_fread no_ferror 2 ['A', 'B'] []
      (by decide)
    have hlen : ['A', 'B'].length = 2 := rfl
    unfold base64_sanitize_out
    simp only [hlen, hdone]
    decide

/-- Claim C11 as amended: for every input byte sequence that holds no NUL byte and is read in
full (every `fread` returns the bytes asked for), `base64_sanitize` only inserts line feeds.
With an allocator that never fails and no read error it returns 0 and a buffer. Whenever it
hands back a buffer, the code is 0, the buffer is the string it holds closed by a NUL, that
string with all line feeds removed equals the input with all line feeds removed, and the input
can be read off the string by skipping characters: every character that is no line feed is
kept, once, in its original order, so the payload handed to the decoder is the payload of the
file. -/
theorem base64_sanitize_out_only_inserts_line_feeds (malloc : Nat → Bool)
    (fread : Nat → List Char → Nat) (ferror : Nat → Int) (fd : List Char)
    (hnul : NUL ∉ fd) (hfull : ∀ asked left, min asked left.length ≤ fread asked left) :
    (∃ buffer, base64_sanitize_out no_alloc_failure fread no_ferror fd = (0, some buffer)) ∧
    ∀ error buffer, base64_sanitize_out malloc fread ferror fd = (error, some buffer) →
      error = 0 ∧ buffer = c_string buffer ++ [NUL] ∧
      without_line_feeds (c_string buffer) = without_line_feeds fd ∧
      fd.Sublist (c_string buffer) := by
  constructor
  · obtain ⟨out, hout⟩ :=
      (base64_sanitize_written_keeps_bytes no_alloc_failure no_ferror fd).1
    exact ⟨out ++ [NUL], by
      rw [base64_sanitize_out_full no_alloc_failure fread no_ferror hfull, hout]
      rfl⟩
  · intro error buffer h
    rw [base64_sanitize_out_full malloc fread ferror hfull] at h
    simp only [Prod.mk.injEq] at h
    obtain ⟨hcode, hbuf⟩ := h
    cases hout : (base64_sanitize malloc ferror fd).2 with
    | none => simp [hout] at hbuf
    | some out =>
      rw [hout] at hbuf
      simp only [Option.map_some', Option.some.injEq] at hbuf
      have hrun : base64_sanitize malloc ferror fd = (error, some out) := by
        rw [← hcode, ← hout]
      obtain ⟨h0, hkeep, hsub⟩ :=
        (base64_sanitize_written_keeps_bytes malloc ferror fd).2 error out hrun
      have hnul_out : NUL ∉ out := by
        intro hm
        have h1 := (nul_mem_without_line_feeds out).1 hm
        rw [hkeep] at h1
        exact hnul ((nul_mem_without_line_feeds fd).2 h1)
      have hstring : c_string buffer = out := by
        rw [← hbuf]
        exact c_string_terminated out hnul_out
      rw [hstring]
      exact ⟨h0, hbuf.symm, hkeep, hsub⟩

/-- The sample body read in full: the string handed back is the input with one line feed added
at its end. -/
theorem base64_sanitize_out_only_inserts_line_feeds_witness :
    NUL ∉ sample_body ∧
    (∀ (asked : Nat) (left : List Char), min asked left.length ≤ full_fread asked left) ∧
    base64_sanitize_out no_alloc_failure full_fread no_ferror sample_body =
      (0, some ['A', 'B', 'C', LF, 'D', 'E', 'F', LF, LF, 'G', 'H', LF, NUL]) ∧
    c_string ['A', 'B', 'C', LF, 'D', 'E', 'F', LF, LF, 'G', 'H', LF, NUL] =
      ['A', 'B', 'C', LF, 'D', 'E', 'F', LF, LF, 'G', 'H', LF] ∧
    without_line_feeds
        (c_string ['A', 'B', 'C', LF, 'D', 'E', 'F', LF, LF, 'G', 'H', LF, NUL]) =
      without_line_feeds sample_body :=
  have hrun : base64_sanitize_out no_alloc_failure full_fread no_ferror sample_body =
      (0, some ['A', 'B', 'C', LF, 'D', 'E', 'F', LF, LF, 'G', 'H', LF, NUL]) := by
    rw [base64_sanitize_out_full no_alloc_failure full_fread no_ferror full_fread_full,
      base64_sanitize_sample]
    rfl
  ⟨by decide, full_fread_full, hrun, by decide,
    ((base64_sanitize_out_only_inserts_line_feeds no_alloc_failure full_fread no_ferror
      sample_body (by decide) full_fread_full).2 0 _ hrun).2.2.1⟩

end Fort
